import Mathlib

/-!
Verification of the RouteX HTTP router and validation engine.

Go strings are modelled as `List Char`, Go maps as association lists with
functional lookup and replace-on-insert, Go errors as an inductive `GoErr`,
and `float64` values as their 64-bit IEEE-754 bit patterns (`Nat`).
External collaborators (the regexp engine, `path.Clean`, `sort.Sort`) are
modelled by their documented contracts, noted at each definition.
-/

/-- Go strings, byte-for-byte (all paths involved are ASCII). -/
abbrev GoStr := List Char

def gs (s : String) : GoStr := s.toList

/-- Go error values used by the repository: `errStr`/`strErr` string constants,
`errors.New` values, the wrapping `errValue`/`err` struct (field name plus
wrapped cause), and the two `strconv` sentinel errors. -/
inductive GoErr where
  | errStr (s : GoStr)
  | errNew (s : GoStr)
  | errValue (s : GoStr) (e : GoErr)
  | errSyn
  | errRange
deriving DecidableEq

/-- The `Error()` string of a Go error value. `errValue.Error` is modelled from
the spec's error-wrapping description (`wrap` in the older source revision:
`s + ": " + e.Error()`). -/
def GoErr.msg : GoErr → GoStr
  | .errStr s => s
  | .errNew s => s
  | .errValue s e => s ++ gs ": " ++ e.msg
  | .errSyn => gs "invalid syntax"
  | .errRange => gs "value out of range"

/-- A single apostrophe character, as used by the validation error messages. -/
def sqc : GoStr := [Char.ofNat 39]

namespace Routex

/-- Go `map[string]V` lookup (`m[k]`), on the association-list model. -/
def mget {V : Type} (m : List (GoStr × V)) (k : GoStr) : Option V :=
  List.lookup k m

/-- Go `map[string]V` assignment (`m[k] = v`): replaces the binding if the key
is present, otherwise appends it. -/
def mput {V : Type} (m : List (GoStr × V)) (k : GoStr) (v : V) : List (GoStr × V) :=
  match m with
  | [] => [(k, v)]
  | (k0, v0) :: rest => if k0 = k then (k0, v) :: rest else (k0, v0) :: mput rest k v

/-- `ErrEmptyValue` from values.go. -/
def ErrEmptyValue : GoErr := .errStr (gs "value is empty")

/-- `ErrNotExists` from content.go. -/
def ErrNotExists : GoErr := .errStr (gs "value does not exist")

/-- Digit test used by `strconv.ParseUint` for base 10. -/
def isDigit (c : Char) : Bool := decide ('0' ≤ c) && decide (c ≤ '9')

/-- Accumulating loop of `strconv.ParseUint(s, 10, 64)`: a non-digit byte is a
syntax error; a value that no longer fits in 64 bits is a range error (Go
checks `n > cutoff` before the multiply and `n1 < n || n1 > maxVal` after; both
together are exactly "the exact value reaches `2^64`"). -/
def parseUintLoop : GoStr → ℕ → Except GoErr ℕ
  | [], n => .ok n
  | c :: rest, n =>
    if isDigit c then
      let n1 := n * 10 + (c.toNat - Char.toNat '0')
      if 2 ^ 64 ≤ n1 then .error .errRange else parseUintLoop rest n1
    else .error .errSyn

/-- `strconv.ParseUint(s, 10, 64)`: the empty string is a syntax error. -/
def parseUintDec (s : GoStr) : Except GoErr ℕ :=
  if s = [] then .error .errSyn else parseUintLoop s 0

/-- `value.Uint` from values.go: empty capture values report `ErrEmptyValue`,
otherwise the decimal parse runs. -/
def value.Uint (v : GoStr) : Except GoErr ℕ :=
  if v.length = 0 then .error ErrEmptyValue else parseUintDec v

/-- `values.Uint` from values.go: a name missing from the capture table fails
with an `errValue` wrapping `ErrNotExists`. -/
def values.Uint (m : List (GoStr × GoStr)) (s : GoStr) : Except GoErr ℕ :=
  match mget m s with
  | none => .error (.errValue s ErrNotExists)
  | some o => value.Uint o

/-- Observable behavior of a compiled `*regexp.Regexp` (an external
collaborator): its literal pattern string (`String()`), its
`FindStringSubmatch` function (`[]` encodes Go's `nil` no-match result,
otherwise index 0 is the whole match), and its `SubexpNames` list (index 0 is
always the empty name). -/
structure Rgx where
  pattern : GoStr
  find : GoStr → List GoStr
  names : List GoStr

/-- The `entry` struct of http.go: optional default handler, per-method handler
map, and the compiled matcher. The handler type is abstract. -/
structure entry (H : Type) where
  base : Option H
  method : List (GoStr × H)
  matcher : Rgx

/-- The four results of `Mux.handler` (http.go lines 138-193): the selected
handler, the built `*Request` (`none` when the Go code returns a nil Request;
`some v` carries the `Values` capture table, itself `none` when the Request is
built without captures), the `Allow` string, and the matched flag. -/
structure handlerResult (H : Type) where
  h : Option H
  x : Option (Option (List (GoStr × GoStr)))
  a : GoStr
  f : Bool
deriving DecidableEq

/-- The capture loop of `Mux.handler` (http.go lines 180-187): every named
submatch group is written into the `Values` map; index 0 and unnamed groups
are skipped. `z` is the running index of the `range` loop. -/
def capturesAux (z : ℕ) (l : List GoStr) : List GoStr → List (GoStr × GoStr) → List (GoStr × GoStr)
  | [], acc => acc
  | n :: rest, acc =>
    capturesAux (z + 1) l rest (if z = 0 ∨ n = [] then acc else mput acc n (l.getD z []))

def captures (names : List GoStr) (l : List GoStr) : List (GoStr × GoStr) :=
  capturesAux 0 l names []

def methodOptions : GoStr := gs "OPTIONS"

/-- Comma-join of the registered method names for the `Allow` header
(http.go lines 156-168). Go iterates the map in unspecified order; the model
uses the map's list order, which only affects the ordering inside the string. -/
def joinComma : List GoStr → GoStr
  | [] => []
  | [a] => a
  | a :: rest => a ++ gs ", " ++ joinComma rest

/-- `Mux.handler` (http.go lines 138-193): walk the route table in order; the
first entry whose matcher finds a submatch decides the result. Within that
entry: the per-method handler if the method map is non-empty and has one;
otherwise, for OPTIONS, the Allow response (method list, or `*` for an entry
with no method map); otherwise the base handler; otherwise the
matched-but-no-handler result. Logging and locking are elided. -/
def Mux.handler {H : Type} : List (entry H) → GoStr → GoStr → handlerResult H
  | [], _, _ => ⟨none, some none, [], false⟩
  | e :: rest, s, mth =>
    let l := e.matcher.find s
    if l.length = 0 then Mux.handler rest s mth
    else
      let h : Option H := if 0 < e.method.length then mget e.method mth else none
      match h with
      | some hh => ⟨some hh, some (some (captures e.matcher.names l)), [], true⟩
      | none =>
        if mth = methodOptions then
          if 0 < e.method.length then
            ⟨none, none, joinComma (e.method.map Prod.fst), true⟩
          else ⟨none, none, [Char.ofNat 42], true⟩
        else
          match e.base with
          | none => ⟨none, some none, [], true⟩
          | some hb => ⟨some hb, some (some (captures e.matcher.names l)), [], true⟩

/-- Outcome of the dispatch decision in `Mux.ServeHTTP` after path
normalization (http.go lines 97-120). -/
inductive serveOutcome (H : Type) where
  | allow204 (a : GoStr)
  | run (h : H) (vals : Option (List (GoStr × GoStr)))
  | err405
  | runDefault
  | err404
deriving DecidableEq

/-- `Mux.ServeHTTP` lines 97-120: the 204/Allow answer for the nil-Request
OPTIONS result, then the matched handler, then 405 on a handler-less match,
then the catch-all `Default`, then 404. -/
def Mux.serve {H : Type} (routes : List (entry H)) (dflt : Option H) (s mth : GoStr) :
    serveOutcome H :=
  let r := Mux.handler routes s mth
  if r.x = none ∧ r.f ∧ 0 < r.a.length then .allow204 r.a
  else
    match r.h with
    | some h => .run h (r.x.getD none)
    | none =>
      if r.f then .err405
      else
        match dflt with
        | some _ => .runDefault
        | none => .err404

/-- `ErrInvalidMethod` from mux.go. -/
def ErrInvalidMethod : GoErr := .errStr (gs "supplied methods contains an empty method name")

/-- The duplicate-route error of `Mux.add`. -/
def dupErr (path : GoStr) : GoErr :=
  .errStr (gs "matcher path \"" ++ path ++ gs "\" already exists")

/-- The method-registration loops of `Mux.add`: every name in `methods` is
bound to the same new handler value. -/
def putAll {H : Type} (m : List (GoStr × H)) (methods : List GoStr) (h : H) :
    List (GoStr × H) :=
  methods.foldl (fun acc n => mput acc n h) m

/-- The duplicate-detection scan of `Mux.add` (mux.go lines 197-222): the first
entry whose pattern string equals `path` is amended — its method map gains all
the supplied methods, or its base handler is set, or a duplicate error is
returned when a base handler already exists and no methods were supplied.
`none` means no entry matched and the caller appends a fresh entry. -/
def addScan {H : Type} : List (entry H) → GoStr → List GoStr → H →
    Option (Except GoErr (List (entry H)))
  | [], _, _, _ => none
  | e :: rest, path, methods, h =>
    if e.matcher.pattern = path then
      if 0 < methods.length then
        some (.ok ({ e with method := putAll e.method methods h } :: rest))
      else if e.base.isSome then some (.error (dupErr path))
      else some (.ok ({ e with base := some h } :: rest))
    else (addScan rest path methods h).map (fun r => r.map (fun rs => e :: rs))

/-- The route-table comparison key: `router.Less` (http.go lines 70-72) orders
entries by the length of the matcher's pattern string. -/
def keyLen {H : Type} (e : entry H) : ℕ := e.matcher.pattern.length

/-- Insertion step of the `sort.Sort` model. -/
def insertSorted {H : Type} (e : entry H) : List (entry H) → List (entry H)
  | [] => [e]
  | f :: rest => if keyLen e ≤ keyLen f then e :: f :: rest else f :: insertSorted e rest

/-- `sort.Sort(m.routes)` (an external collaborator): modelled by its
contract — a permutation of the table that is sorted under `router.Less`
(ascending pattern-string length). The model uses insertion sort; Go's
unstable sort is only specified up to that contract. -/
def sortRoutes {H : Type} : List (entry H) → List (entry H)
  | [] => []
  | e :: rest => insertSorted e (sortRoutes rest)

/-- `Mux.add` (mux.go lines 191-239): reject empty method names; amend an
existing entry for the same pattern string; otherwise append a fresh entry
(method map, or base handler when no methods were given) and re-sort. -/
def Mux.add {H : Type} (routes : List (entry H)) (path : GoStr) (methods : List GoStr)
    (x : Rgx) (h : H) : Except GoErr (List (entry H)) :=
  if methods.any (fun n => n.length = 0) then .error ErrInvalidMethod
  else
    match addScan routes path methods h with
    | some r => r
    | none =>
      let e : entry H :=
        if 0 < methods.length then ⟨none, putAll [] methods h, x⟩ else ⟨some h, [], x⟩
      .ok (sortRoutes (routes ++ [e]))

/-- One registration call against the Mux. -/
structure regCall (H : Type) where
  path : GoStr
  methods : List GoStr
  x : Rgx
  h : H

/-- A sequence of registration calls applied to a route table; a call that
fails leaves the table unchanged (`Mux.add` returns before mutating). -/
def applyRegs {H : Type} : List (regCall H) → List (entry H) → List (entry H)
  | [], rs => rs
  | c :: cs, rs =>
    applyRegs cs
      (match Mux.add rs c.path c.methods c.x c.h with
       | .ok rs1 => rs1
       | .error _ => rs)

/-- Split a byte string at every `/` (the segment view of a path). -/
def splitSlash : GoStr → List GoStr
  | [] => [[]]
  | c :: rest =>
    if c = '/' then [] :: splitSlash rest
    else
      match splitSlash rest with
      | [] => [[c]]
      | seg :: segs => (c :: seg) :: segs

/-- Join segments with `/`. -/
def joinSlash : List GoStr → GoStr
  | [] => []
  | [a] => a
  | a :: rest => a ++ '/' :: joinSlash rest

/-- The iterative element elimination of `path.Clean` on a rooted path, on the
segment view: empty and `.` segments are dropped, `..` removes the previous
kept segment (and is dropped at the root), and every other segment is kept.
`stk` holds the kept segments in reverse. -/
def elimSegs : List GoStr → List GoStr → List GoStr
  | stk, [] => stk.reverse
  | stk, seg :: rest =>
    if seg = [] ∨ seg = ['.'] then elimSegs stk rest
    else if seg = ['.', '.'] then elimSegs stk.tail rest
    else elimSegs (seg :: stk) rest

/-- The Go standard library `path.Clean` (an external collaborator), modelled
by its documented rules for the rooted paths `clean` always passes it:
repeated slashes collapse, `.` segments vanish, `..` consumes the preceding
segment and cannot climb above the root, and the result is `/` or a rooted
path with no trailing slash. -/
def pathClean (s : GoStr) : GoStr :=
  '/' :: joinSlash (elimSegs [] (splitSlash s))

/-- The body of `clean` from http.go (lines 58-65) on the rooted path `s1`
(`n := path.Clean(s)` is inlined as `pathClean s1`): a trailing slash on the
input is put back onto a non-root cleaned result, returning the input itself
when it already equals the cleaned result plus the slash
(`len(s) == len(n)+1 && strings.HasPrefix(s, n)`). -/
def cleanRest (s1 : GoStr) : GoStr :=
  if 1 < (pathClean s1).length ∧ s1.getLastD ' ' = '/' ∧ pathClean s1 ≠ ['/'] then
    if s1.length = (pathClean s1).length + 1 ∧ (pathClean s1).isPrefixOf s1 then s1
    else pathClean s1 ++ ['/']
  else pathClean s1

/-- `clean` from http.go (lines 51-66): empty paths become `/`; a missing
leading slash is prepended (lines 52-57); then the clean-and-restore-slash
body runs. -/
def clean (s : GoStr) : GoStr :=
  if s.length = 0 then ['/']
  else cleanRest (if s.headD ' ' ≠ '/' then '/' :: s else s)

/-- A Go panic value as classified by the recover block of `Mux.process`
(http.go lines 196-205): a value implementing `error` (carrying its `Error()`
string), a plain string, a value implementing `String()`, or anything else.
A value implementing several of these is classified by the first matching
case of the Go type switch; the constructors model that outcome. -/
inductive GoPanic where
  | errVal (msg : GoStr)
  | strVal (s : GoStr)
  | stringerVal (s : GoStr)
  | otherVal
deriving DecidableEq

/-- The classification switch of the recover block: the initial value
`"unknown panic"` survives only the default case. -/
def classify : GoPanic → GoStr
  | .errVal m => m
  | .strVal s => s
  | .stringerVal s => s
  | .otherVal => gs "unknown panic"

/-- Which error handlers are configured on the Mux (`Error404`, `Error405`,
`Error500`, `Error`). -/
structure errCfg where
  has404 : Bool
  has405 : Bool
  has500 : Bool
  hasGen : Bool
deriving DecidableEq

/-- The report written by `Mux.handleError`: one of the four configured
handlers, or the minimal plain-text default response. -/
inductive report where
  | via404 (c : ℕ) (s : GoStr)
  | via405 (c : ℕ) (s : GoStr)
  | via500 (c : ℕ) (s : GoStr)
  | viaGen (c : ℕ) (s : GoStr)
  | minimal (c : ℕ)
deriving DecidableEq

/-- `Mux.handleError` (http.go lines 122-136): the status-specific handler
when configured, else the generic handler, else the minimal default. -/
def Mux.handleError (cfg : errCfg) (c : ℕ) (s : GoStr) : report :=
  if c = 404 ∧ cfg.has404 then .via404 c s
  else if c = 405 ∧ cfg.has405 then .via405 c s
  else if c = 500 ∧ cfg.has500 then .via500 c s
  else if cfg.hasGen then .viaGen c s
  else .minimal c

/-- Behavior of one middleware invocation on this request: it returns a
boolean, or it panics. -/
inductive mwResult where
  | ret (b : Bool)
  | panics (p : GoPanic)
deriving DecidableEq

/-- Behavior of the user handler on this request. -/
inductive handlerBehavior where
  | ok
  | panics (p : GoPanic)
deriving DecidableEq

/-- Running one middleware slice (http.go lines 219-240): `.ok true` when all
returned true, `.ok false` when one returned false (aborting the chain), and
`.error p` when one panicked. -/
def runWares : List mwResult → Except GoPanic Bool
  | [] => .ok true
  | .ret true :: rest => runWares rest
  | .ret false :: _ => .ok false
  | .panics p :: _ => .error p

/-- The first panic raised by the middleware/handler chain, if any. -/
def chainPanic (g r : List mwResult) (hb : handlerBehavior) : Option GoPanic :=
  match runWares g with
  | .error p => some p
  | .ok false => none
  | .ok true =>
    match runWares r with
    | .error p => some p
    | .ok false => none
    | .ok true =>
      match hb with
      | .panics p => some p
      | .ok => none

/-- Observable outcome of one `Mux.process` call: whether the timeout-derived
context was created (line 217), whether the release function `f` was invoked
(lines 224, 236, 242 — `f` is not deferred, so a panic unwinds past it to the
recover block), the 500-class report produced by the recover block (`none`
when no panic occurred), and whether the user handler ran. -/
structure procState where
  ctxCreated : Bool
  released : Bool
  resp : Option report
  handlerRan : Bool
deriving DecidableEq

/-- `Mux.process` (http.go lines 194-243) on a request whose middleware and
handler behave as given. A panic anywhere in the chain unwinds straight to the
deferred recover block, which classifies the value and reports a 500 through
`Mux.handleError`; the release function is invoked only on the non-panicking
paths. -/
def Mux.process (cfg : errCfg) (timeout : ℕ) (g r : List mwResult)
    (hb : handlerBehavior) : procState :=
  let created := 0 < timeout
  match runWares g with
  | .error p => ⟨created, false, some (Mux.handleError cfg 500 (classify p)), false⟩
  | .ok false => ⟨created, true, none, false⟩
  | .ok true =>
    match runWares r with
    | .error p => ⟨created, false, some (Mux.handleError cfg 500 (classify p)), false⟩
    | .ok false => ⟨created, true, none, false⟩
    | .ok true =>
      match hb with
      | .panics p => ⟨created, false, some (Mux.handleError cfg 500 (classify p)), true⟩
      | .ok => ⟨created, true, none, true⟩

/-- The router-owned state read by dispatch. `ServeHTTP`/`process` never write
any `Mux` field (they only read under the lock), which the dispatch model
makes explicit by returning the state unchanged. -/
structure MuxState (H : Type) where
  routes : List (entry H)
  dflt : Option H
  cfg : errCfg
  timeout : ℕ

/-- One full dispatch against the router: the per-request work of `ServeHTTP`
plus `process`, returning the (unmodified) router state and the process
outcome. -/
def dispatch {H : Type} (m : MuxState H) (g r : List mwResult) (hb : handlerBehavior) :
    MuxState H × procState :=
  (m, Mux.process m.cfg m.timeout g r hb)

/-- The literal pattern of the spec's capture example. -/
def itemsPat : GoStr := gs "^/items/(?P<id>[0-9]+)$"

def isDigits (s : GoStr) : Bool := (s.all fun c => isDigit c) && decide (s ≠ [])

/-- `FindStringSubmatch` of the compiled regexp `^/items/(?P<id>[0-9]+)$`,
modelled from the external Go regexp engine's semantics for this literal
pattern: the anchored expression matches exactly the strings made of the
literal `/items/` followed by one or more digits; group 1 captures the
digits. -/
def itemsFind (s : GoStr) : List GoStr :=
  if s.take 7 = gs "/items/" ∧ isDigits (s.drop 7) then [s, s.drop 7] else []

/-- The compiled regexp of the spec's capture example: its `SubexpNames` is
`["", "id"]`. -/
def itemsRgx : Rgx := ⟨itemsPat, itemsFind, [[], gs "id"]⟩

/-- The route-table entry produced by registering `itemsRgx` with a default
handler (handler ids are natural numbers in the concrete examples). -/
def itemsEntry : entry ℕ := ⟨some 7, [], itemsRgx⟩

/-- A concrete entry with a default handler (id 1) and a GET handler (id 2),
whose matcher (modelling the compiled `^/a$`) matches exactly `/a`. -/
def eC1 : entry ℕ :=
  ⟨some 1, [(gs "GET", 2)], ⟨gs "^/a$", fun p => if p = gs "/a" then [p] else [], [[]]⟩⟩

/-- A concrete entry whose matcher (modelling the compiled `^/b$`) matches
nothing among the paths used in the examples. -/
def eNoMatch : entry ℕ := ⟨some 3, [], ⟨gs "^/b$", fun _ => [], [[]]⟩⟩

/-- A concrete entry with only a default handler (id 4), whose matcher
(modelling the compiled `^/c$`) matches exactly `/c`. -/
def eStar : entry ℕ :=
  ⟨some 4, [], ⟨gs "^/c$", fun p => if p = gs "/c" then [p] else [], [[]]⟩⟩

/-- A concrete registration call with the five-byte pattern `^/aa$`. -/
def cA : regCall ℕ := ⟨gs "^/aa$", [], ⟨gs "^/aa$", fun _ => [], [[]]⟩, 1⟩

/-- A concrete registration call with the four-byte pattern `^/b$`. -/
def cB : regCall ℕ := ⟨gs "^/b$", [], ⟨gs "^/b$", fun _ => [], [[]]⟩, 2⟩

/-- A path segment in normal form: non-empty, not `.`, not `..`, and free of
slashes — exactly the segments `path.Clean` can leave in its output. -/
def goodSeg (s : GoStr) : Prop :=
  s ≠ [] ∧ s ≠ ['.'] ∧ s ≠ ['.', '.'] ∧ '/' ∉ s

end Routex

namespace Val

/-- Decoded JSON values as produced by `encoding/json` into
`map[string]interface{}`: null, booleans, numbers (always `float64`, kept as
their bit patterns), strings, objects, and lists. -/
inductive JVal where
  | null
  | jbool (b : Bool)
  | jnum (bits : ℕ)
  | jstr (s : GoStr)
  | jobj (m : List (GoStr × JVal))
  | jlist (l : List JVal)

def isNull : JVal → Bool
  | .null => true
  | _ => false

end Val

namespace Val

/-- The `kind` tags of val/kind.go, with their `iota` numeric values (the `k`
prefix avoids shadowing the core Lean types of the same names). -/
abbrev kind := ℕ

def kAny : kind := 0
def kNone : kind := 1
def kNumber : kind := 2
def kInt : kind := 3
def kString : kind := 4
def kBool : kind := 5
def kObject : kind := 6
def kList : kind := 7
def kListNumber : kind := 8
def kListString : kind := 9

/-- `kind.String()` from val/kind.go. -/
def kindString (k : kind) : GoStr :=
  if k = kAny then gs "any"
  else if k = kNone then gs "null"
  else if k = kNumber then gs "number"
  else if k = kInt then gs "integer"
  else if k = kString then gs "string"
  else if k = kBool then gs "boolean"
  else if k = kObject then gs "object"
  else if k = kList then gs "[]object"
  else if k = kListNumber then gs "[]number"
  else if k = kListString then gs "[]string"
  else gs "invalid"

/-- IEEE-754 double exponent field of a 64-bit pattern: Go's
`uint64(i>>52) & 0x7FF`, written as division and remainder (`x >> k` is
`x / 2^k` and `x & (2^k - 1)` is `x % 2^k` on the 64-bit values involved). -/
def expField (i : ℕ) : ℕ := i / 2 ^ 52 % 2 ^ 11

/-- IEEE-754 double mantissa field of a 64-bit pattern (`i & (1<<52 - 1)`). -/
def mantField (i : ℕ) : ℕ := i % 2 ^ 52

/-- Sign bit of a 64-bit pattern (`i >> 63`, for `i < 2^64`). -/
def sgnOf (i : ℕ) : Bool := i / 2 ^ 63 % 2 = 1

def isNaNb (i : ℕ) : Bool := expField i = 2 ^ 11 - 1 && mantField i ≠ 0

def isInfb (i : ℕ) : Bool := expField i = 2 ^ 11 - 1 && mantField i = 0

/-- Exact value of a finite float64 bit pattern, scaled by `2 ^ 1074` (every
finite double is an integer multiple of `2 ^ (-1074)`, so this is lossless). -/
def toZ (i : ℕ) : ℤ :=
  let m : ℤ :=
    if expField i = 0 then (mantField i : ℤ)
    else ((2 ^ 52 + mantField i : ℕ) : ℤ) * 2 ^ (expField i - 1)
  if sgnOf i then -m else m

/-- The Go float64 comparison `x == y` on bit patterns: false when either side
is NaN; infinities compare by bit equality (the signs must agree); finite
values compare by exact value (which makes `+0 == -0` true). -/
def feq (x y : ℕ) : Bool :=
  if isNaNb x || isNaNb y then false
  else if isInfb x || isInfb y then x = y
  else toZ x = toZ y

/-- The Go test `(f - r) > 0` as computed by `modf`, where `r` is `f` with low
mantissa bits cleared. When `r = f` bitwise the difference is `+0`, `-0`, or
NaN (for infinities and NaN), never greater than zero. Otherwise both are
finite values in the same binade, so the IEEE subtraction is exact (Sterbenz)
and the comparison agrees with the exact scaled values. -/
def fsubPos (f r : ℕ) : Bool :=
  if r = f then false else 0 < toZ f - toZ r

/-- The truncated-bits result of `modf` from val/number.go: `e` is the
unbiased exponent computed with wrapping `uint64` subtraction
(`uint64(i>>52)&0x7FF - 1023`), and when `e < 52` the low `52 - e` mantissa
bits are cleared (`i &^= 1<<(52-e) - 1`, i.e. `i - i % 2^(52-e)`). -/
def modfBits (i : ℕ) : ℕ :=
  let e := (expField i + (2 ^ 64 - 1023)) % 2 ^ 64
  if e < 52 then i - i % 2 ^ (52 - e) else i

/-- `modf` from val/number.go on the 64-bit pattern: the truncated value and
the remainder flag `(f - r) > 0`. -/
def modf (i : ℕ) : ℕ × Bool :=
  (modfBits i, fsubPos i (modfBits i))

/-- `number.Validate` from val/number.go on a float64 bit pattern (the
`i.(float64)` assertion already succeeded); `n = true` is the `Integer` rule,
`n = false` the `Float` rule. The numeral that `strconv.FormatFloat` embeds in
the message text is abstracted away; the claims only depend on whether the
result is nil. -/
def numberValidate (n : Bool) (x : ℕ) : Option GoErr :=
  let v := (modf x).1
  let r := (modf x).2
  if n && (!feq v x || r) then some (.errNew (gs "value must an integer"))
  else if !n && (feq v x && !r) then some (.errNew (gs "value must a float"))
  else none

/-- The `Validator` struct of val/set.go. A `Rule` is an interface (external
behavior), modelled as a function from the value to an optional error. -/
structure Validator where
  Name : GoStr
  Rules : List (JVal → Option GoErr)
  typ : kind
  Optional : Bool

/-- `ErrInvalidName` from val/set.go. -/
def ErrInvalidName : GoErr := .errNew (gs "invalid name in set")

/-- The `"'name': required"` error of `validate`. -/
def requiredErr (name : GoStr) : GoErr :=
  .errNew (sqc ++ name ++ sqc ++ gs ": required")

/-- The `"'name': expected 'want' but got 'got'"` errors of
`Validator.Validate`. -/
def expErr (name want got : GoStr) : GoErr :=
  .errNew (sqc ++ name ++ sqc ++ gs ": expected " ++ sqc ++ want ++ sqc ++
    gs " but got " ++ sqc ++ got ++ sqc)

/-- `reflect.TypeOf(i).String()` for the values reaching the default branch of
the type switch. -/
def typeName : JVal → GoStr
  | .jobj _ => gs "map[string]interface \x7b\x7d"
  | .jlist _ => gs "[]interface \x7b\x7d"
  | _ => gs ""

/-- The element loop of `Validator.Validate` for the `ListNumber` and
`ListString` kinds (val/set.go lines 101-112). -/
def listElemsOk (t : kind) (name : GoStr) : List JVal → Option GoErr
  | [] => none
  | e :: rest =>
    if t = kListNumber then
      match e with
      | .jnum _ => listElemsOk t name rest
      | _ => some (.errNew (sqc ++ name ++ sqc ++ gs ": " ++ sqc ++ gs "[]number" ++ sqc ++
          gs " contains invalid entry"))
    else
      match e with
      | .jstr _ => listElemsOk t name rest
      | _ => some (.errNew (sqc ++ name ++ sqc ++ gs ": " ++ sqc ++ gs "[]string" ++ sqc ++
          gs " contains invalid entry"))

/-- The type switch of `Validator.Validate` (val/set.go lines 66-114), entered
only when `v.typ > None`; the null case is already handled by the caller.
Booleans, strings and numbers check their kind tag (`Int` runs the `modf`
test); maps must be `Object`; slices must be at least `List`, with the
element check for the refined list kinds. -/
def typeCheck (v : Validator) (i : JVal) : Option GoErr :=
  match i with
  | .null => none
  | .jbool _ =>
    if v.typ = kBool then none
    else some (expErr v.Name (kindString v.typ) (gs "boolean"))
  | .jstr _ =>
    if v.typ = kString then none
    else some (expErr v.Name (kindString v.typ) (gs "string"))
  | .jnum t =>
    if v.typ = kNumber then none
    else if v.typ = kInt then
      if !feq t (modf t).1 || (modf t).2 then some (expErr v.Name (gs "integer") (gs "float"))
      else none
    else some (expErr v.Name (kindString v.typ) (gs "number"))
  | .jobj _ =>
    if v.typ ≠ kObject then some (expErr v.Name (gs "object") (typeName i))
    else none
  | .jlist l =>
    if v.typ < kList then
      some (.errNew (sqc ++ v.Name ++ sqc ++ gs ": expected " ++ sqc ++ gs "[]object" ++ sqc ++
        gs " but got " ++ sqc ++ typeName i ++ sqc))
    else if kList < v.typ then listElemsOk v.typ v.Name l
    else none

/-- The rules loop of `Validator.Validate` (val/set.go lines 116-120): the
first failing rule's error is wrapped with the field name. -/
def runRules : List (JVal → Option GoErr) → GoStr → JVal → Option GoErr
  | [], _, _ => none
  | r :: rest, name, i =>
    match r i with
    | some e => some (.errNew (sqc ++ name ++ sqc ++ gs ": " ++ e.msg))
    | none => runRules rest name i

/-- `Validator.Validate` from val/set.go: a null value fails any kind above
`None`; then the kind check runs (when the kind is above `None`), then the
rules. -/
def Validator.Validate (v : Validator) (i : JVal) : Option GoErr :=
  if isNull i && decide (kNone < v.typ) then
    some (expErr v.Name (kindString v.typ) (gs "null"))
  else
    match (if kNone < v.typ then typeCheck v i else none) with
    | some e => some e
    | none => runRules v.Rules v.Name i

/-- `validate` from val/set.go (lines 142-162): walk the Validators in
declaration order; an empty name fails with `ErrInvalidName`; a name absent
from the content is skipped for the `None` kind or an optional Validator and
otherwise fails with the required error; a present value runs
`Validator.Validate`. (`Set.Validate` simply forwards to this function.) -/
def validate : List Validator → List (GoStr × JVal) → Option GoErr
  | [], _ => none
  | v :: rest, m =>
    if v.Name.length = 0 then some ErrInvalidName
    else
      match Routex.mget m v.Name with
      | none =>
        if v.typ = kNone ∨ v.Optional then validate rest m
        else some (requiredErr v.Name)
      | some i =>
        match v.Validate i with
        | some e => some e
        | none => validate rest m

/-- One Validator succeeding on (or being skipped for) a content map: either
its field is absent and it is skippable, or its field is present and its
`Validate` accepts the value. -/
def stepOk (u : Validator) (m : List (GoStr × JVal)) : Prop :=
  (Routex.mget m u.Name = none ∧ (u.typ = kNone ∨ u.Optional)) ∨
  (∃ i, Routex.mget m u.Name = some i ∧ u.Validate i = none)

end Val

/-! ## Helper lemmas: float64 bit-pattern evaluations (claim C3) -/

theorem feqFin (x y : ℕ) (hx : Val.isNaNb x = false) (hy : Val.isNaNb y = false)
    (hx2 : Val.isInfb x = false) (hy2 : Val.isInfb y = false) :
    Val.feq x y = decide (Val.toZ x = Val.toZ y) := by
  unfold Val.feq
  rw [hx, hy, hx2, hy2]
  simp

theorem c3_nan40 : Val.isNaNb 0x4010000000000000 = false := by
  unfold Val.isNaNb Val.expField
  norm_num

theorem c3_nan45 : Val.isNaNb 0x4012000000000000 = false := by
  unfold Val.isNaNb Val.expField
  norm_num

theorem c3_nanH : Val.isNaNb 0x3FE0000000000000 = false := by
  unfold Val.isNaNb Val.expField
  norm_num

theorem c3_inf40 : Val.isInfb 0x4010000000000000 = false := by
  unfold Val.isInfb Val.expField
  norm_num

theorem c3_inf45 : Val.isInfb 0x4012000000000000 = false := by
  unfold Val.isInfb Val.expField
  norm_num

theorem c3_infH : Val.isInfb 0x3FE0000000000000 = false := by
  unfold Val.isInfb Val.expField
  norm_num

theorem c3_z40 : Val.toZ 0x4010000000000000 = 2 ^ 52 * 2 ^ 1024 := by
  unfold Val.toZ Val.expField Val.mantField Val.sgnOf
  norm_num

theorem c3_z45 : Val.toZ 0x4012000000000000 = (2 ^ 52 + 2 ^ 49) * 2 ^ 1024 := by
  unfold Val.toZ Val.expField Val.mantField Val.sgnOf
  norm_num

theorem c3_zH : Val.toZ 0x3FE0000000000000 = 2 ^ 1073 := by
  unfold Val.toZ Val.expField Val.mantField Val.sgnOf
  norm_num

theorem c3_mb40 : Val.modfBits 0x4010000000000000 = 0x4010000000000000 := by
  unfold Val.modfBits Val.expField
  norm_num

theorem c3_mb45 : Val.modfBits 0x4012000000000000 = 0x4010000000000000 := by
  unfold Val.modfBits Val.expField
  norm_num

theorem c3_mbH : Val.modfBits 0x3FE0000000000000 = 0x3FE0000000000000 := by
  unfold Val.modfBits Val.expField
  norm_num

theorem c3_feq4040 : Val.feq 0x4010000000000000 0x4010000000000000 = true := by
  rw [feqFin _ _ c3_nan40 c3_nan40 c3_inf40 c3_inf40]
  exact decide_eq_true rfl

theorem c3_feqHH : Val.feq 0x3FE0000000000000 0x3FE0000000000000 = true := by
  rw [feqFin _ _ c3_nanH c3_nanH c3_infH c3_infH]
  exact decide_eq_true rfl

theorem c3_feq4045 : Val.feq 0x4010000000000000 0x4012000000000000 = false := by
  rw [feqFin _ _ c3_nan40 c3_nan45 c3_inf40 c3_inf45, c3_z40, c3_z45]
  exact decide_eq_false (by norm_num)

theorem c3_fsub4040 : Val.fsubPos 0x4010000000000000 0x4010000000000000 = false := by
  unfold Val.fsubPos
  rw [if_pos rfl]

theorem c3_fsubHH : Val.fsubPos 0x3FE0000000000000 0x3FE0000000000000 = false := by
  unfold Val.fsubPos
  rw [if_pos rfl]

theorem c3_fsub4540 : Val.fsubPos 0x4012000000000000 0x4010000000000000 = true := by
  unfold Val.fsubPos
  rw [if_neg (by norm_num), c3_z40, c3_z45]
  exact decide_eq_true (by norm_num)

theorem c3_modf40 : Val.modf 0x4010000000000000 = (0x4010000000000000, false) := by
  unfold Val.modf
  rw [c3_mb40, c3_fsub4040]

theorem c3_modf45 : Val.modf 0x4012000000000000 = (0x4010000000000000, true) := by
  unfold Val.modf
  rw [c3_mb45, c3_fsub4540]

theorem c3_modfH : Val.modf 0x3FE0000000000000 = (0x3FE0000000000000, false) := by
  unfold Val.modf
  rw [c3_mbH, c3_fsubHH]

theorem c3_int40none : Val.numberValidate true 0x4010000000000000 = none := by
  simp only [Val.numberValidate, c3_modf40, c3_feq4040]
  rfl

theorem c3_int45some : Val.numberValidate true 0x4012000000000000 ≠ none := by
  simp only [Val.numberValidate, c3_modf45, c3_feq4045]
  simp

theorem c3_flt45none : Val.numberValidate false 0x4012000000000000 = none := by
  simp only [Val.numberValidate, c3_modf45, c3_feq4045]
  rfl

theorem c3_flt40some : Val.numberValidate false 0x4010000000000000 ≠ none := by
  simp only [Val.numberValidate, c3_modf40, c3_feq4040]
  simp

theorem c3_intHnone : Val.numberValidate true 0x3FE0000000000000 = none := by
  simp only [Val.numberValidate, c3_modfH, c3_feqHH]
  rfl

theorem c3_fltHsome : Val.numberValidate false 0x3FE0000000000000 ≠ none := by
  simp only [Val.numberValidate, c3_modfH, c3_feqHH]
  simp

/-! ## Claim theorems -/

/-- Claim C3 (code_bug): the spec and the code's own doc comments require that
only exact integral floats pass the `Integer` rule and that any value with a
non-zero fractional part passes the `Float` rule. The code matches the claim
at the documented examples (4.0 and 4.5, first four conjuncts), but `modf`
omits the `|x| < 1` case of the standard-library algorithm it reimplements:
`uint64(i>>52)&0x7FF - 1023` wraps for biased exponents below 1023, so for
0.5 no mantissa bits are cleared, `Integer.Validate(0.5)` returns nil and
`Float.Validate(0.5)` fails, although 0.5 (whose exact value scaled by
`2^1074` is `2^1073`) has a non-zero fractional part. -/
theorem claim_C3 :
    Val.numberValidate true 0x4010000000000000 = none ∧
    Val.numberValidate true 0x4012000000000000 ≠ none ∧
    Val.numberValidate false 0x4012000000000000 = none ∧
    Val.numberValidate false 0x4010000000000000 ≠ none ∧
    Val.numberValidate true 0x3FE0000000000000 = none ∧
    Val.numberValidate false 0x3FE0000000000000 ≠ none ∧
    Val.toZ 0x3FE0000000000000 = 2 ^ 1073 ∧
    Val.toZ 0x3FE0000000000000 % 2 ^ 1074 ≠ 0 :=
  ⟨c3_int40none, c3_int45some, c3_flt45none, c3_flt40some, c3_intHnone, c3_fltHsome,
   c3_zH, by rw [c3_zH]; norm_num⟩

/-! ## Helper lemmas: dispatch and panic recovery (claims C5, C6) -/

theorem process_of_panic (cfg : Routex.errCfg) (t : ℕ) (g r : List Routex.mwResult)
    (hb : Routex.handlerBehavior) (p : Routex.GoPanic)
    (hp : Routex.chainPanic g r hb = some p) :
    (Routex.Mux.process cfg t g r hb).resp =
      some (Routex.Mux.handleError cfg 500 (Routex.classify p)) ∧
    (Routex.Mux.process cfg t g r hb).released = false := by
  unfold Routex.chainPanic at hp
  unfold Routex.Mux.process
  cases hg : Routex.runWares g with
  | error q =>
    rw [hg] at hp
    simp only [Option.some.injEq] at hp
    subst hp
    simp [hg]
  | ok b =>
    cases b with
    | false => rw [hg] at hp; simp at hp
    | true =>
      rw [hg] at hp
      cases hr : Routex.runWares r with
      | error q =>
        rw [hr] at hp
        simp only [Option.some.injEq] at hp
        subst hp
        simp [hg, hr]
      | ok b2 =>
        cases b2 with
        | false => rw [hr] at hp; simp at hp
        | true =>
          rw [hr] at hp
          cases hb with
          | ok => simp at hp
          | panics q =>
            simp only [Option.some.injEq] at hp
            subst hp
            simp [hg, hr]

theorem process_of_no_panic (cfg : Routex.errCfg) (t : ℕ) (g r : List Routex.mwResult)
    (hb : Routex.handlerBehavior) (hp : Routex.chainPanic g r hb = none) :
    (Routex.Mux.process cfg t g r hb).released = true ∧
    (Routex.Mux.process cfg t g r hb).ctxCreated = decide (0 < t) := by
  unfold Routex.chainPanic at hp
  unfold Routex.Mux.process
  cases hg : Routex.runWares g with
  | error q => rw [hg] at hp; simp at hp
  | ok b =>
    cases b with
    | false => simp [hg]
    | true =>
      rw [hg] at hp
      cases hr : Routex.runWares r with
      | error q => rw [hr] at hp; simp at hp
      | ok b2 =>
        cases b2 with
        | false => simp [hg, hr]
        | true =>
          rw [hr] at hp
          cases hb with
          | panics q => simp at hp
          | ok => simp [hg, hr]

/-- Claim C5 (confirmed): a panic raised by middleware or the user handler
never escapes dispatch: `process` always returns (first conjunct: the panic is
converted into a 500 report built by `handleError` from the classified panic
value), the classification follows the Go type switch (error values by their
message, strings as themselves, Stringers by their `String()`, anything else
the generic marker), the 500 report goes through the configured `Error500`
handler, else the generic `Error` handler, else the minimal default response,
and the router state is unchanged by dispatch, so a subsequent independent
request resolves exactly as it would on a fresh router. -/
theorem claim_C5 {H : Type} (m : Routex.MuxState H) (g r : List Routex.mwResult)
    (hb : Routex.handlerBehavior) (p : Routex.GoPanic)
    (hp : Routex.chainPanic g r hb = some p) :
    (Routex.dispatch m g r hb).2.resp =
      some (Routex.Mux.handleError m.cfg 500 (Routex.classify p)) ∧
    (∀ s, Routex.classify (.errVal s) = s) ∧
    (∀ s, Routex.classify (.strVal s) = s) ∧
    (∀ s, Routex.classify (.stringerVal s) = s) ∧
    Routex.classify .otherVal = gs "unknown panic" ∧
    (∀ cfg s, cfg.has500 = true →
      Routex.Mux.handleError cfg 500 s = .via500 500 s) ∧
    (∀ cfg s, cfg.has500 = false → cfg.hasGen = true →
      Routex.Mux.handleError cfg 500 s = .viaGen 500 s) ∧
    (∀ cfg s, cfg.has500 = false → cfg.hasGen = false →
      Routex.Mux.handleError cfg 500 s = .minimal 500) ∧
    (Routex.dispatch m g r hb).1 = m ∧
    (∀ s mth, Routex.Mux.serve (Routex.dispatch m g r hb).1.routes
        (Routex.dispatch m g r hb).1.dflt s mth =
      Routex.Mux.serve m.routes m.dflt s mth) := by
  refine ⟨(process_of_panic m.cfg m.timeout g r hb p hp).1, ?_, ?_, ?_, ?_, ?_, ?_, ?_, rfl,
    fun s mth => rfl⟩
  · intro s; rfl
  · intro s; rfl
  · intro s; rfl
  · rfl
  · intro cfg s h5
    simp [Routex.Mux.handleError, h5]
  · intro cfg s h5 hg2
    simp [Routex.Mux.handleError, h5, hg2]
  · intro cfg s h5 hg2
    simp [Routex.Mux.handleError, h5, hg2]

/-- Witness for C5 at a concrete router and a handler panicking with a string
value. -/
theorem claim_C5_witness :
    (Routex.dispatch (⟨[], none, ⟨false, false, false, false⟩, 0⟩ : Routex.MuxState ℕ)
        [] [] (.panics (.strVal (gs "boom")))).2.resp =
      some (Routex.Mux.handleError ⟨false, false, false, false⟩ 500
        (Routex.classify (.strVal (gs "boom")))) :=
  (claim_C5 (⟨[], none, ⟨false, false, false, false⟩, 0⟩ : Routex.MuxState ℕ)
    [] [] (.panics (.strVal (gs "boom"))) (.strVal (gs "boom")) (by decide)).1

/-- Claim C6 (corrected): when `Timeout` is non-zero the timeout-derived
context is created before the middleware/handler chain runs, and its release
function is invoked before `process` returns on every path on which the chain
does not panic: normal handler completion (including after the timeout fires,
which only cancels the context), and a middleware aborting the chain by
returning false. (The original claim's "every execution path" fails: on a
panic the non-deferred release call is skipped — see the counterexample.) -/
theorem claim_C6 (cfg : Routex.errCfg) (t : ℕ) (g r : List Routex.mwResult)
    (hb : Routex.handlerBehavior) (ht : 0 < t)
    (hnp : Routex.chainPanic g r hb = none) :
    (Routex.Mux.process cfg t g r hb).ctxCreated = true ∧
    (Routex.Mux.process cfg t g r hb).released = true := by
  obtain ⟨h1, h2⟩ := process_of_no_panic cfg t g r hb hnp
  exact ⟨by rw [h2]; simpa using ht, h1⟩

/-- Witness for C6: timeout 1, one middleware returning true, handler
completing normally. -/
theorem claim_C6_witness :
    (Routex.Mux.process ⟨false, false, false, false⟩ 1 [.ret true] [] .ok).ctxCreated = true ∧
    (Routex.Mux.process ⟨false, false, false, false⟩ 1 [.ret true] [] .ok).released = true :=
  claim_C6 ⟨false, false, false, false⟩ 1 [.ret true] [] .ok (by decide) (by decide)

/-- Counterexample to C6 as stated: with a non-zero timeout and a panicking
handler, the timeout context is created but the release function is not
invoked before dispatch returns (the call is not deferred, so the panic
unwinds past it). -/
theorem claim_C6_counterexample :
    (Routex.Mux.process ⟨false, false, false, false⟩ 1 [] []
        (.panics .otherVal)).ctxCreated = true ∧
    (Routex.Mux.process ⟨false, false, false, false⟩ 1 [] []
        (.panics .otherVal)).released = false := by
  decide

/-! ## Claims C9 and C10: set validation skip logic -/

/-- Claim C9 (corrected): for a Validator with a NON-EMPTY name whose field is
absent from the content, set validation skips it exactly when its kind is the
must-be-absent (`None`) tag or it is marked Optional (the result is that of
validating the remaining Validators), and otherwise fails with the
required-field error for that name. (The original claim's universal "if and
only if" fails for empty-named Validators, which are never skipped — see the
counterexample and claim C10.) -/
theorem claim_C9 (v : Val.Validator) (rest : List Val.Validator)
    (m : List (GoStr × Val.JVal)) (hn : v.Name ≠ [])
    (habs : Routex.mget m v.Name = none) :
    Val.validate (v :: rest) m =
      (if v.typ = Val.kNone ∨ v.Optional then Val.validate rest m
       else some (Val.requiredErr v.Name)) := by
  have hlen : ¬ (v.Name.length = 0) := by simpa using hn
  conv_lhs => unfold Val.validate
  rw [if_neg hlen]
  simp only [habs]

/-- Witness for C9: a single required field fails `validate({})` with the
required error; the same field marked optional passes. -/
theorem claim_C9_witness :
    Val.validate [⟨gs "name", [], Val.kAny, false⟩] [] =
      some (Val.requiredErr (gs "name")) ∧
    Val.validate [⟨gs "name", [], Val.kAny, true⟩] [] = none := by
  constructor
  · have h := claim_C9 ⟨gs "name", [], Val.kAny, false⟩ [] [] (by decide) rfl
    rw [if_neg (by decide)] at h
    exact h
  · have h := claim_C9 ⟨gs "name", [], Val.kAny, true⟩ [] [] (by decide) rfl
    rw [if_pos (by exact Or.inr rfl)] at h
    exact h

/-- Counterexample to C9 as stated: a Validator with an empty name and kind
`None`, whose (empty) field name is absent from the empty content map, is not
skipped — validation fails with `ErrInvalidName` instead of returning the
result of the empty remainder (nil). -/
theorem claim_C9_counterexample :
    Val.validate [⟨[], [], Val.kNone, false⟩] [] = some Val.ErrInvalidName ∧
    Routex.mget ([] : List (GoStr × Val.JVal)) ([] : GoStr) = none ∧
    (⟨[], [], Val.kNone, false⟩ : Val.Validator).typ = Val.kNone ∧
    Val.validate [] ([] : List (GoStr × Val.JVal)) = none :=
  ⟨rfl, rfl, rfl, rfl⟩

/-- Claim C10 (corrected): an empty-named Validator is never skipped — not
even when Optional or of kind `None` — and `validate` fails with
`ErrInvalidName` at the first empty-named Validator on every content map on
which all preceding Validators pass or are skipped (in particular on any map
where all named fields are present and valid). (The original claim's "for
every content map" fails when an earlier Validator fails first — see the
counterexample.) -/
theorem claim_C10 (pre : List Val.Validator) (v : Val.Validator)
    (rest : List Val.Validator) (m : List (GoStr × Val.JVal))
    (hv : v.Name = [])
    (hpre : ∀ u ∈ pre, u.Name ≠ [] ∧ Val.stepOk u m) :
    Val.validate (pre ++ v :: rest) m = some Val.ErrInvalidName := by
  induction pre with
  | nil =>
    rw [List.nil_append]
    unfold Val.validate
    rw [hv]
    rfl
  | cons u pre ih =>
    obtain ⟨hu, hstep⟩ := hpre u (by simp)
    have hrest : ∀ w ∈ pre, w.Name ≠ [] ∧ Val.stepOk w m :=
      fun w hw => hpre w (by simp [hw])
    have hlen : ¬ (u.Name.length = 0) := by simpa using hu
    show Val.validate (u :: (pre ++ v :: rest)) m = _
    unfold Val.validate
    rw [if_neg hlen]
    rcases hstep with ⟨habs, hskip⟩ | ⟨i, hget, hok⟩
    · simp only [habs]
      rw [if_pos hskip]
      exact ih hrest
    · simp only [hget, hok]
      exact ih hrest

/-- Witness for C10: the empty-named Validator (even Optional and of kind
`None`) makes validation fail with `ErrInvalidName` on a map where the
preceding named field is present and valid. -/
theorem claim_C10_witness :
    Val.validate [⟨gs "a", [], Val.kAny, false⟩, ⟨[], [], Val.kNone, true⟩]
      [(gs "a", Val.JVal.jstr (gs "x"))] = some Val.ErrInvalidName :=
  claim_C10 [⟨gs "a", [], Val.kAny, false⟩] ⟨[], [], Val.kNone, true⟩ []
    [(gs "a", Val.JVal.jstr (gs "x"))] rfl
    (by
      intro u hu
      simp only [List.mem_singleton] at hu
      subst hu
      exact ⟨by decide, Or.inr ⟨Val.JVal.jstr (gs "x"), rfl, rfl⟩⟩)

/-- Counterexample to C10 as stated: with a required Validator named `a`
before the empty-named one and the empty content map, `Set.Validate` returns
the required-field error for `a`, not `ErrInvalidName`. -/
theorem claim_C10_counterexample :
    Val.validate [⟨gs "a", [], Val.kAny, false⟩, ⟨[], [], Val.kAny, false⟩] [] =
      some (Val.requiredErr (gs "a")) ∧
    Val.requiredErr (gs "a") ≠ Val.ErrInvalidName :=
  ⟨rfl, by decide⟩

/-! ## Helper lemmas: route resolution (claims C1, C2, C8) -/

theorem mget_nil {H : Type} (k : GoStr) : Routex.mget ([] : List (GoStr × H)) k = none := rfl

theorem ite_len_mget {H : Type} (m : List (GoStr × H)) (k : GoStr) :
    (if 0 < m.length then Routex.mget m k else none) = Routex.mget m k := by
  cases m with
  | nil => rfl
  | cons a rest => simp

theorem handler_skip {H : Type} (e : Routex.entry H) (rest : List (Routex.entry H))
    (s mth : GoStr) (h : e.matcher.find s = []) :
    Routex.Mux.handler (e :: rest) s mth = Routex.Mux.handler rest s mth := by
  conv_lhs => unfold Routex.Mux.handler
  simp [h]

theorem handler_skip_all {H : Type} (xs rs : List (Routex.entry H)) (s mth : GoStr)
    (hxs : ∀ u ∈ xs, u.matcher.find s = []) :
    Routex.Mux.handler (xs ++ rs) s mth = Routex.Mux.handler rs s mth := by
  induction xs with
  | nil => rfl
  | cons u xs ih =>
    rw [List.cons_append, handler_skip u (xs ++ rs) s mth (hxs u (by simp))]
    exact ih fun w hw => hxs w (by simp [hw])

theorem handler_cons_match {H : Type} (e : Routex.entry H) (rest : List (Routex.entry H))
    (s mth : GoStr) (h : e.matcher.find s ≠ []) :
    Routex.Mux.handler (e :: rest) s mth = Routex.Mux.handler [e] s mth := by
  have hlen : ¬ ((e.matcher.find s).length = 0) := by
    simpa [List.length_eq_zero] using h
  conv_lhs => unfold Routex.Mux.handler
  conv_rhs => unfold Routex.Mux.handler
  simp only [if_neg hlen]

theorem handler_single {H : Type} (e : Routex.entry H) (s mth : GoStr)
    (h : e.matcher.find s ≠ []) (hopt : mth ≠ Routex.methodOptions) :
    Routex.Mux.handler [e] s mth =
      (match Routex.mget e.method mth with
       | some hh =>
         ⟨some hh, some (some (Routex.captures e.matcher.names (e.matcher.find s))), [], true⟩
       | none =>
         match e.base with
         | none => ⟨none, some none, [], true⟩
         | some hb =>
           ⟨some hb, some (some (Routex.captures e.matcher.names (e.matcher.find s))), [],
             true⟩) := by
  have hlen : ¬ ((e.matcher.find s).length = 0) := by
    simpa [List.length_eq_zero] using h
  conv_lhs => unfold Routex.Mux.handler
  simp only [if_neg hlen, ite_len_mget, if_neg hopt]

theorem joinComma_ne_nil (l : List GoStr) (hne : l ≠ []) (h : ∀ k ∈ l, k ≠ []) :
    Routex.joinComma l ≠ [] := by
  cases l with
  | nil => exact absurd rfl hne
  | cons a rest =>
    cases rest with
    | nil => exact h a (by simp)
    | cons b t =>
      show a ++ gs ", " ++ Routex.joinComma (b :: t) ≠ []
      intro hc
      have hlen := congrArg List.length hc
      rw [List.length_append, List.length_append] at hlen
      have h2 : (gs ", ").length = 2 := rfl
      simp only [List.length_nil] at hlen
      omega

theorem handler_single_options {H : Type} (e : Routex.entry H) (s : GoStr)
    (h : e.matcher.find s ≠ [])
    (hmg : Routex.mget e.method Routex.methodOptions = none) :
    Routex.Mux.handler [e] s Routex.methodOptions =
      (if 0 < e.method.length then
        (⟨none, none, Routex.joinComma (e.method.map Prod.fst), true⟩ :
          Routex.handlerResult H)
       else ⟨none, none, gs "*", true⟩) := by
  have hlen : ¬ ((e.matcher.find s).length = 0) := by
    simpa [List.length_eq_zero] using h
  conv_lhs => unfold Routex.Mux.handler
  simp only [if_neg hlen, ite_len_mget, hmg, ite_self, eq_self_iff_true, if_true]
  split <;> rfl

/-- Claim C1 (corrected): resolution is decided by the first entry in table
order whose matcher structurally matches the path — once an entry matches, no
later entry is ever consulted (first conjunct, which holds for every method,
OPTIONS included). For every request method other than OPTIONS, the matched
entry yields its method-specific handler when one exists, else its default
handler when one exists, and otherwise the matched flag with no handler,
which `ServeHTTP` turns into the 405 response regardless of any catch-all
default handler (second conjunct). For an OPTIONS request with no
OPTIONS-specific handler, the router never selects the default handler:
a default-only entry yields the `*` Allow response and an entry with a
method map yields the Allow-list of its methods, in both cases answered as
the 204 Allow response (third conjunct). (The original claim fails for
OPTIONS — see the counterexample.) -/
theorem claim_C1 {H : Type} (xs : List (Routex.entry H)) (e : Routex.entry H)
    (rest : List (Routex.entry H)) (dflt : Option H) (s mth : GoStr)
    (hxs : ∀ u ∈ xs, u.matcher.find s = []) (he : e.matcher.find s ≠ []) :
    Routex.Mux.handler (xs ++ e :: rest) s mth = Routex.Mux.handler [e] s mth ∧
    (mth ≠ Routex.methodOptions →
      (Routex.Mux.handler (xs ++ e :: rest) s mth).h =
        (Routex.mget e.method mth).orElse (fun _ => e.base) ∧
      (Routex.Mux.handler (xs ++ e :: rest) s mth).f = true ∧
      (Routex.mget e.method mth = none → e.base = none →
        Routex.Mux.serve (xs ++ e :: rest) dflt s mth = .err405)) ∧
    (mth = Routex.methodOptions → Routex.mget e.method mth = none →
      (e.method = [] →
        Routex.Mux.handler (xs ++ e :: rest) s mth = ⟨none, none, gs "*", true⟩ ∧
        Routex.Mux.serve (xs ++ e :: rest) dflt s mth = .allow204 (gs "*")) ∧
      (e.method ≠ [] →
        Routex.Mux.handler (xs ++ e :: rest) s mth =
          ⟨none, none, Routex.joinComma (e.method.map Prod.fst), true⟩ ∧
        ((∀ k ∈ e.method.map Prod.fst, k ≠ []) →
          Routex.Mux.serve (xs ++ e :: rest) dflt s mth =
            .allow204 (Routex.joinComma (e.method.map Prod.fst))))) := by
  have hfirst : Routex.Mux.handler (xs ++ e :: rest) s mth = Routex.Mux.handler [e] s mth :=
    (handler_skip_all xs (e :: rest) s mth hxs).trans (handler_cons_match e rest s mth he)
  refine ⟨hfirst, fun hopt => ?_, fun hopt hmg => ?_⟩
  · have hs := handler_single e s mth he hopt
    refine ⟨?_, ?_, ?_⟩
    · rw [hfirst, hs]
      cases hmg : Routex.mget e.method mth with
      | some hh => rfl
      | none => cases e.base <;> rfl
    · rw [hfirst, hs]
      cases hmg : Routex.mget e.method mth with
      | some hh => rfl
      | none => cases e.base <;> rfl
    · intro hmg hb
      unfold Routex.Mux.serve
      rw [hfirst, hs, hmg, hb]
      rfl
  · subst hopt
    have hs := handler_single_options e s he hmg
    constructor
    · intro hmnil
      have hh : Routex.Mux.handler (xs ++ e :: rest) s Routex.methodOptions =
          ⟨none, none, gs "*", true⟩ := by
        rw [hfirst, hs, hmnil]
        rfl
      refine ⟨hh, ?_⟩
      unfold Routex.Mux.serve
      rw [hh]
      rfl
    · intro hmne
      have hlen2 : 0 < e.method.length := List.length_pos.mpr hmne
      have hh : Routex.Mux.handler (xs ++ e :: rest) s Routex.methodOptions =
          ⟨none, none, Routex.joinComma (e.method.map Prod.fst), true⟩ := by
        rw [hfirst, hs, if_pos hlen2]
      refine ⟨hh, fun hk => ?_⟩
      have hjo : Routex.joinComma (e.method.map Prod.fst) ≠ [] :=
        joinComma_ne_nil _ (by simpa using hmne) hk
      unfold Routex.Mux.serve
      rw [hh]
      rw [if_pos ⟨rfl, rfl, List.length_pos.mpr hjo⟩]

/-- Witness for C1: with a non-matching entry ahead of `eC1` in the table, a
GET for `/a` resolves to `eC1` alone and selects its GET handler (id 2); an
OPTIONS for `/a` answers with the Allow list of `eC1`'s method map; an
OPTIONS for `/c` against the default-only entry `eStar` answers with the `*`
Allow response. -/
theorem claim_C1_witness :
    Routex.Mux.handler ([Routex.eNoMatch] ++ Routex.eC1 :: []) (gs "/a") (gs "GET") =
      Routex.Mux.handler [Routex.eC1] (gs "/a") (gs "GET") ∧
    (Routex.Mux.handler ([Routex.eNoMatch] ++ Routex.eC1 :: []) (gs "/a") (gs "GET")).h =
      some 2 ∧
    Routex.Mux.serve ([] ++ Routex.eC1 :: []) none (gs "/a") (gs "OPTIONS") =
      .allow204 (Routex.joinComma (Routex.eC1.method.map Prod.fst)) ∧
    Routex.Mux.serve ([] ++ Routex.eStar :: []) none (gs "/c") (gs "OPTIONS") =
      .allow204 (gs "*") := by
  have h := claim_C1 [Routex.eNoMatch] Routex.eC1 [] none (gs "/a") (gs "GET")
    (by
      intro u hu
      simp only [List.mem_singleton] at hu
      subst hu
      rfl)
    (by decide)
  have h3 := claim_C1 [] Routex.eC1 [] none (gs "/a") (gs "OPTIONS")
    (by intro u hu; cases hu) (by decide)
  have h4 := claim_C1 [] Routex.eStar [] none (gs "/c") (gs "OPTIONS")
    (by intro u hu; cases hu) (by decide)
  refine ⟨h.1, ((h.2.1 (by decide)).1).trans (by decide), ?_, ?_⟩
  · exact (((h3.2.2 rfl (by decide)).2 (by decide)).2 (by decide))
  · exact ((h4.2.2 rfl rfl).1 rfl).2

/-- Counterexample to C1 as stated: `eC1` structurally matches `/a`, has a
default handler (id 1), and has no OPTIONS handler; the claim requires an
OPTIONS request to select the default handler, but resolution returns no
handler and `ServeHTTP` answers with the 204 Allow-list response. -/
theorem claim_C1_counterexample :
    Routex.eC1.base = some 1 ∧
    Routex.mget Routex.eC1.method (gs "OPTIONS") = none ∧
    Routex.eC1.matcher.find (gs "/a") ≠ [] ∧
    Routex.Mux.handler [Routex.eC1] (gs "/a") (gs "OPTIONS") =
      ⟨none, none, gs "GET", true⟩ ∧
    Routex.Mux.serve [Routex.eC1] none (gs "/a") (gs "OPTIONS") = .allow204 (gs "GET") := by
  refine ⟨rfl, by decide, by decide, by decide, by decide⟩

/-! ## Helper lemmas: route-table sorting (claims C2, C4) -/

theorem insertSorted_perm {H : Type} (e : Routex.entry H) (rs : List (Routex.entry H)) :
    (Routex.insertSorted e rs).Perm (e :: rs) := by
  induction rs with
  | nil => rfl
  | cons f rest ih =>
    unfold Routex.insertSorted
    by_cases hle : Routex.keyLen e ≤ Routex.keyLen f
    · rw [if_pos hle]
    · rw [if_neg hle]
      exact (List.Perm.cons f ih).trans (List.Perm.swap e f rest)

theorem insertSorted_pairwise {H : Type} (e : Routex.entry H) (rs : List (Routex.entry H))
    (hs : List.Pairwise (fun a b => Routex.keyLen a ≤ Routex.keyLen b) rs) :
    List.Pairwise (fun a b => Routex.keyLen a ≤ Routex.keyLen b)
      (Routex.insertSorted e rs) := by
  induction rs with
  | nil => simp [Routex.insertSorted]
  | cons f rest ih =>
    unfold Routex.insertSorted
    rcases List.pairwise_cons.mp hs with ⟨hf, hrest⟩
    by_cases hle : Routex.keyLen e ≤ Routex.keyLen f
    · rw [if_pos hle]
      refine List.pairwise_cons.mpr ⟨?_, hs⟩
      intro a ha
      rcases List.mem_cons.mp ha with rfl | ha
      · exact hle
      · exact le_trans hle (hf a ha)
    · rw [if_neg hle]
      refine List.pairwise_cons.mpr ⟨?_, ih hrest⟩
      intro a ha
      rcases List.mem_cons.mp ((insertSorted_perm e rest).mem_iff.mp ha) with rfl | ha
      · omega
      · exact hf a ha

theorem sortRoutes_pairwise {H : Type} (rs : List (Routex.entry H)) :
    List.Pairwise (fun a b => Routex.keyLen a ≤ Routex.keyLen b) (Routex.sortRoutes rs) := by
  induction rs with
  | nil => simp [Routex.sortRoutes]
  | cons e rest ih => exact insertSorted_pairwise e _ ih

theorem sortRoutes_perm {H : Type} (rs : List (Routex.entry H)) :
    (Routex.sortRoutes rs).Perm rs := by
  induction rs with
  | nil => rfl
  | cons e rest ih =>
    exact (insertSorted_perm e (Routex.sortRoutes rest)).trans (List.Perm.cons e ih)

theorem addScan_ok_maps {H : Type} (rs : List (Routex.entry H)) (path : GoStr)
    (ms : List GoStr) (h : H) (rs2 : List (Routex.entry H))
    (hs : Routex.addScan rs path ms h = some (.ok rs2)) :
    rs2.map (fun e => e.matcher.pattern) = rs.map (fun e => e.matcher.pattern) := by
  induction rs generalizing rs2 with
  | nil => simp [Routex.addScan] at hs
  | cons e rest ih =>
    unfold Routex.addScan at hs
    by_cases hp : e.matcher.pattern = path
    · rw [if_pos hp] at hs
      by_cases hm : 0 < ms.length
      · rw [if_pos hm] at hs
        simp only [Option.some.injEq, Except.ok.injEq] at hs
        subst hs
        rfl
      · rw [if_neg hm] at hs
        by_cases hb : e.base.isSome
        · rw [if_pos hb] at hs
          simp at hs
        · rw [if_neg hb] at hs
          simp only [Option.some.injEq, Except.ok.injEq] at hs
          subst hs
          rfl
    · rw [if_neg hp] at hs
      cases hr : Routex.addScan rest path ms h with
      | none => rw [hr] at hs; simp at hs
      | some r =>
        rw [hr] at hs
        cases r with
        | error err => simp [Except.map] at hs
        | ok rs3 =>
          simp only [Option.map_some', Except.map, Option.some.injEq, Except.ok.injEq] at hs
          subst hs
          simp only [List.map_cons, ih rs3 hr]

theorem keyLen_map_of_pattern_map {H : Type} (rs rs2 : List (Routex.entry H))
    (h : rs2.map (fun e => e.matcher.pattern) = rs.map (fun e => e.matcher.pattern)) :
    rs2.map Routex.keyLen = rs.map Routex.keyLen := by
  have h2 := congrArg (List.map List.length) h
  simpa [Routex.keyLen, Function.comp] using h2

theorem pairwise_of_keyLen_map {H : Type} (rs rs2 : List (Routex.entry H))
    (h : rs2.map Routex.keyLen = rs.map Routex.keyLen)
    (hs : List.Pairwise (fun a b => Routex.keyLen a ≤ Routex.keyLen b) rs) :
    List.Pairwise (fun a b => Routex.keyLen a ≤ Routex.keyLen b) rs2 := by
  have h1 : List.Pairwise (· ≤ ·) (rs.map Routex.keyLen) := List.pairwise_map.mpr hs
  rw [← h] at h1
  exact List.pairwise_map.mp h1

theorem add_ok_pairwise {H : Type} (rs : List (Routex.entry H)) (path : GoStr)
    (ms : List GoStr) (x : Routex.Rgx) (h : H) (rs2 : List (Routex.entry H))
    (hadd : Routex.Mux.add rs path ms x h = .ok rs2)
    (hs : List.Pairwise (fun a b => Routex.keyLen a ≤ Routex.keyLen b) rs) :
    List.Pairwise (fun a b => Routex.keyLen a ≤ Routex.keyLen b) rs2 := by
  unfold Routex.Mux.add at hadd
  by_cases hms : ms.any (fun n => n.length = 0)
  · rw [if_pos hms] at hadd; cases hadd
  · rw [if_neg hms] at hadd
    cases hscan : Routex.addScan rs path ms h with
    | some r =>
      rw [hscan] at hadd
      cases r with
      | error err => cases hadd
      | ok rs3 =>
        cases hadd
        exact pairwise_of_keyLen_map rs rs2
          (keyLen_map_of_pattern_map rs rs2 (addScan_ok_maps rs path ms h rs2 hscan)) hs
    | none =>
      rw [hscan] at hadd
      cases hadd
      exact sortRoutes_pairwise _

theorem applyRegs_pairwise {H : Type} (cs : List (Routex.regCall H))
    (rs : List (Routex.entry H))
    (hs : List.Pairwise (fun a b => Routex.keyLen a ≤ Routex.keyLen b) rs) :
    List.Pairwise (fun a b => Routex.keyLen a ≤ Routex.keyLen b)
      (Routex.applyRegs cs rs) := by
  induction cs generalizing rs with
  | nil => exact hs
  | cons c cs ih =>
    unfold Routex.applyRegs
    cases hadd : Routex.Mux.add rs c.path c.methods c.x c.h with
    | ok rs2 => exact ih rs2 (add_ok_pairwise rs c.path c.methods c.x c.h rs2 hadd hs)
    | error err => exact ih rs hs

/-- Claim C2 (confirmed): after any sequence of registration calls against an
initially empty router (failed calls leave the table unchanged), the route
table is sorted ascending by the length of each entry's literal pattern
string, and consequently any entry with a strictly shorter pattern sits at a
strictly smaller index than any entry with a longer pattern — so resolution,
which scans the table in index order (claim C1, first conjunct), attempts P1
before P2 whenever `len(P1) < len(P2)`, regardless of registration order. -/
theorem claim_C2 {H : Type} (cs : List (Routex.regCall H)) :
    List.Pairwise (fun a b => Routex.keyLen a ≤ Routex.keyLen b)
      (Routex.applyRegs cs []) ∧
    (∀ i j : Fin (Routex.applyRegs cs []).length,
      Routex.keyLen ((Routex.applyRegs cs []).get i) <
        Routex.keyLen ((Routex.applyRegs cs []).get j) → i < j) := by
  have hp := applyRegs_pairwise cs [] (by simp)
  refine ⟨hp, fun i j hlt => ?_⟩
  by_contra hij
  push_neg at hij
  rcases lt_or_eq_of_le hij with hji | hji
  · exact absurd (List.pairwise_iff_get.mp hp j i hji) (by omega)
  · subst hji
    omega

/-- Witness for C2: registering the five-byte pattern before the four-byte one
still places the four-byte entry first. -/
theorem claim_C2_witness :
    (⟨0, by decide⟩ : Fin (Routex.applyRegs [Routex.cA, Routex.cB] []).length) <
      ⟨1, by decide⟩ :=
  (claim_C2 [Routex.cA, Routex.cB]).2 ⟨0, by decide⟩ ⟨1, by decide⟩ (by decide)

/-! ## Helper lemmas: map updates and duplicate detection (claims C4, C8) -/

theorem mget_cons {V : Type} (k0 : GoStr) (v0 : V) (rest : List (GoStr × V)) (k : GoStr) :
    Routex.mget ((k0, v0) :: rest) k = if k = k0 then some v0 else Routex.mget rest k := by
  unfold Routex.mget
  by_cases h : k = k0
  · subst h
    simp [List.lookup]
  · simp [List.lookup, beq_eq_false_iff_ne.mpr h, h]

theorem mget_mput_self {V : Type} (m : List (GoStr × V)) (k : GoStr) (v : V) :
    Routex.mget (Routex.mput m k v) k = some v := by
  induction m with
  | nil => simp [Routex.mput, mget_cons]
  | cons p rest ih =>
    obtain ⟨k0, v0⟩ := p
    unfold Routex.mput
    by_cases hk : k0 = k
    · rw [if_pos hk]
      subst hk
      simp [mget_cons]
    · rw [if_neg hk]
      rw [mget_cons, if_neg (Ne.symm hk)]
      exact ih

theorem mget_mput_other {V : Type} (m : List (GoStr × V)) (k k2 : GoStr) (v : V)
    (hne : k2 ≠ k) :
    Routex.mget (Routex.mput m k v) k2 = Routex.mget m k2 := by
  induction m with
  | nil =>
    unfold Routex.mput
    rw [mget_cons, if_neg hne]
  | cons p rest ih =>
    obtain ⟨k0, v0⟩ := p
    unfold Routex.mput
    by_cases hk : k0 = k
    · rw [if_pos hk]
      subst hk
      rw [mget_cons, mget_cons, if_neg hne, if_neg hne]
    · rw [if_neg hk]
      rw [mget_cons, mget_cons]
      by_cases hk2 : k2 = k0
      · rw [if_pos hk2, if_pos hk2]
      · rw [if_neg hk2, if_neg hk2]
        exact ih

theorem putAll_single {V : Type} (m : List (GoStr × V)) (k : GoStr) (v : V) :
    Routex.putAll m [k] v = Routex.mput m k v := rfl

theorem addScan_none_not_mem {H : Type} (rs : List (Routex.entry H)) (path : GoStr)
    (ms : List GoStr) (h : H) (hs : Routex.addScan rs path ms h = none) :
    ∀ e ∈ rs, e.matcher.pattern ≠ path := by
  induction rs with
  | nil => intro e he; cases he
  | cons e rest ih =>
    unfold Routex.addScan at hs
    by_cases hp : e.matcher.pattern = path
    · rw [if_pos hp] at hs
      by_cases hm : 0 < ms.length
      · rw [if_pos hm] at hs; cases hs
      · rw [if_neg hm] at hs
        by_cases hb : e.base.isSome
        · rw [if_pos hb] at hs; cases hs
        · rw [if_neg hb] at hs; cases hs
    · rw [if_neg hp] at hs
      intro u hu
      rcases List.mem_cons.mp hu with rfl | hu
      · exact hp
      · cases hr : Routex.addScan rest path ms h with
        | none => exact ih (by rw [hr]) u hu
        | some r => rw [hr] at hs; simp [Except.map] at hs

theorem addScan_decomp {H : Type} (pre : List (Routex.entry H)) (e : Routex.entry H)
    (post : List (Routex.entry H)) (path : GoStr) (ms : List GoStr) (h : H)
    (hpre : ∀ u ∈ pre, u.matcher.pattern ≠ path) (he : e.matcher.pattern = path) :
    Routex.addScan (pre ++ e :: post) path ms h =
      (if 0 < ms.length then
        some (.ok (pre ++ { e with method := Routex.putAll e.method ms h } :: post))
      else if e.base.isSome then some (.error (Routex.dupErr path))
      else some (.ok (pre ++ { e with base := some h } :: post))) := by
  induction pre with
  | nil =>
    rw [List.nil_append]
    unfold Routex.addScan
    rw [if_pos he]
    split
    · rfl
    · split <;> rfl
  | cons u pre ih =>
    have hu : u.matcher.pattern ≠ path := hpre u (by simp)
    have hrest : ∀ w ∈ pre, w.matcher.pattern ≠ path := fun w hw => hpre w (by simp [hw])
    rw [List.cons_append]
    unfold Routex.addScan
    rw [if_neg hu, ih hrest]
    split
    · rfl
    · split <;> rfl

theorem add_ok_nodup {H : Type} (rs : List (Routex.entry H)) (path : GoStr)
    (ms : List GoStr) (x : Routex.Rgx) (h : H) (rs2 : List (Routex.entry H))
    (hpx : path = x.pattern)
    (hadd : Routex.Mux.add rs path ms x h = .ok rs2)
    (hnd : (rs.map (fun e => e.matcher.pattern)).Nodup) :
    (rs2.map (fun e => e.matcher.pattern)).Nodup := by
  unfold Routex.Mux.add at hadd
  by_cases hms : ms.any (fun n => n.length = 0)
  · rw [if_pos hms] at hadd; cases hadd
  · rw [if_neg hms] at hadd
    cases hscan : Routex.addScan rs path ms h with
    | some r =>
      rw [hscan] at hadd
      cases r with
      | error err => cases hadd
      | ok rs3 =>
        cases hadd
        rw [addScan_ok_maps rs path ms h rs2 hscan]
        exact hnd
    | none =>
      rw [hscan] at hadd
      cases hadd
      have hnew : ∀ u ∈ rs, u.matcher.pattern ≠ x.pattern := by
        intro u hu
        rw [← hpx]
        exact addScan_none_not_mem rs path ms h hscan u hu
      have hmatch :
          (if 0 < ms.length then (⟨none, Routex.putAll [] ms h, x⟩ : Routex.entry H)
           else ⟨some h, [], x⟩).matcher = x := by
        split <;> rfl
      have happ : ((rs ++ [if 0 < ms.length then (⟨none, Routex.putAll [] ms h, x⟩ : Routex.entry H)
          else ⟨some h, [], x⟩]).map (fun e => e.matcher.pattern)).Nodup := by
        rw [List.map_append]
        refine List.Nodup.append hnd (by simp) ?_
        intro a ha hb
        simp only [List.map_cons, List.map_nil, List.mem_singleton] at hb
        rcases List.mem_map.mp ha with ⟨u, hu, rfl⟩
        rw [hmatch] at hb
        exact hnew u hu hb
      exact (((sortRoutes_perm _).map (fun e => e.matcher.pattern)).nodup_iff).mpr happ

theorem applyRegs_nodup {H : Type} (cs : List (Routex.regCall H))
    (rs : List (Routex.entry H))
    (hcs : ∀ c ∈ cs, c.path = c.x.pattern)
    (hnd : (rs.map (fun e => e.matcher.pattern)).Nodup) :
    ((Routex.applyRegs cs rs).map (fun e => e.matcher.pattern)).Nodup := by
  induction cs generalizing rs with
  | nil => exact hnd
  | cons c cs ih =>
    unfold Routex.applyRegs
    cases hadd : Routex.Mux.add rs c.path c.methods c.x c.h with
    | ok rs2 =>
      exact ih rs2 (fun w hw => hcs w (by simp [hw]))
        (add_ok_nodup rs c.path c.methods c.x c.h rs2 (hcs c (by simp)) hadd hnd)
    | error err => exact ih rs (fun w hw => hcs w (by simp [hw])) hnd

/-- Claim C4 (confirmed): a pattern string identifies at most one route-table
entry (first conjunct: the table built by any registration sequence has
pairwise-distinct pattern strings). Re-registering an existing pattern with
one or more (non-empty) methods amends that same entry's method table in
place (second conjunct). Re-registering the same pattern and method replaces
the prior handler — last write wins (third conjunct) — while two different
methods registered on the same pattern stay independently resolvable (fourth
conjunct). Re-registering an existing pattern with no methods when the entry
already has a default handler fails with the duplicate-route error and
leaves the table unchanged (fifth conjunct). -/
theorem claim_C4 {H : Type} (pre : List (Routex.entry H)) (e : Routex.entry H)
    (post : List (Routex.entry H)) (path : GoStr) (ms : List GoStr)
    (x : Routex.Rgx) (h : H)
    (hpre : ∀ u ∈ pre, u.matcher.pattern ≠ path) (he : e.matcher.pattern = path) :
    (∀ (cs : List (Routex.regCall H)), (∀ c ∈ cs, c.path = c.x.pattern) →
      ((Routex.applyRegs cs []).map (fun u => u.matcher.pattern)).Nodup) ∧
    (0 < ms.length → (∀ n ∈ ms, n ≠ []) →
      Routex.Mux.add (pre ++ e :: post) path ms x h =
        .ok (pre ++ { e with method := Routex.putAll e.method ms h } :: post)) ∧
    (∀ (m : List (GoStr × H)) (mth : GoStr) (h1 h2 : H),
      Routex.mget (Routex.putAll (Routex.putAll m [mth] h1) [mth] h2) mth = some h2) ∧
    (∀ (m : List (GoStr × H)) (m1 m2 : GoStr) (h1 h2 : H), m1 ≠ m2 →
      Routex.mget (Routex.putAll (Routex.putAll m [m1] h1) [m2] h2) m1 = some h1 ∧
      Routex.mget (Routex.putAll (Routex.putAll m [m1] h1) [m2] h2) m2 = some h2) ∧
    (e.base.isSome →
      Routex.Mux.add (pre ++ e :: post) path [] x h = .error (Routex.dupErr path) ∧
      Routex.applyRegs [⟨path, [], x, h⟩] (pre ++ e :: post) = pre ++ e :: post) := by
  refine ⟨?_, ?_, ?_, ?_, ?_⟩
  · intro cs hcs
    exact applyRegs_nodup cs [] hcs (by simp)
  · intro hm hmne
    have hany : ¬ ((ms.any fun n => n.length = 0) = true) := by
      simp only [List.any_eq_true, not_exists, not_and]
      intro n hn
      simpa [List.length_eq_zero] using hmne n hn
    unfold Routex.Mux.add
    rw [if_neg hany, addScan_decomp pre e post path ms h hpre he, if_pos hm]
  · intro m mth h1 h2
    rw [putAll_single, putAll_single]
    exact mget_mput_self _ _ _
  · intro m m1 m2 h1 h2 hne
    rw [putAll_single, putAll_single]
    exact ⟨(mget_mput_other _ _ _ _ hne).trans (mget_mput_self _ _ _),
      mget_mput_self _ _ _⟩
  · intro hbase
    have haddEq : Routex.Mux.add (pre ++ e :: post) path [] x h =
        .error (Routex.dupErr path) := by
      unfold Routex.Mux.add
      rw [if_neg (by simp), addScan_decomp pre e post path [] h hpre he,
        if_neg (by simp), if_pos hbase]
    refine ⟨haddEq, ?_⟩
    unfold Routex.applyRegs
    rw [haddEq]
    rfl

/-- Witness for C4: amending `eNoMatch` (pattern `^/b$`, default handler 3)
with a GET handler succeeds in place; the second write for the same method
wins; re-registering the default handler fails with the duplicate error. -/
theorem claim_C4_witness :
    Routex.Mux.add [Routex.eNoMatch] (gs "^/b$") [gs "GET"]
        ⟨gs "^/b$", fun _ => [], [[]]⟩ 9 =
      .ok [{ Routex.eNoMatch with
              method := Routex.putAll Routex.eNoMatch.method [gs "GET"] 9 }] ∧
    Routex.mget (Routex.putAll (Routex.putAll ([] : List (GoStr × ℕ)) [gs "GET"] 1)
        [gs "GET"] 2) (gs "GET") = some 2 ∧
    Routex.Mux.add [Routex.eNoMatch] (gs "^/b$") [] ⟨gs "^/b$", fun _ => [], [[]]⟩ 9 =
      .error (Routex.dupErr (gs "^/b$")) := by
  have h := claim_C4 [] Routex.eNoMatch [] (gs "^/b$") [gs "GET"]
    ⟨gs "^/b$", fun _ => [], [[]]⟩ 9 (by intro u hu; cases hu) rfl
  refine ⟨h.2.1 (by decide) ?_, h.2.2.1 [] (gs "GET") 1 2, (h.2.2.2.2 rfl).1⟩
  intro n hn
  rcases List.mem_singleton.mp hn with rfl
  decide

theorem mput_keys_mem {V : Type} (m : List (GoStr × V)) (k : GoStr) (v : V) (a : GoStr)
    (ha : a ∈ (Routex.mput m k v).map Prod.fst) : a = k ∨ a ∈ m.map Prod.fst := by
  induction m with
  | nil => simpa [Routex.mput] using ha
  | cons p rest ih =>
    obtain ⟨k0, v0⟩ := p
    unfold Routex.mput at ha
    by_cases hk : k0 = k
    · rw [if_pos hk] at ha
      subst hk
      simp only [List.map_cons, List.mem_cons] at ha ⊢
      tauto
    · rw [if_neg hk] at ha
      simp only [List.map_cons, List.mem_cons] at ha ⊢
      rcases ha with rfl | ha
      · exact Or.inr (Or.inl rfl)
      · rcases ih ha with h | h
        · exact Or.inl h
        · exact Or.inr (Or.inr h)

theorem mput_keys_nodup {V : Type} (m : List (GoStr × V)) (k : GoStr) (v : V)
    (h : (m.map Prod.fst).Nodup) : ((Routex.mput m k v).map Prod.fst).Nodup := by
  induction m with
  | nil => simp [Routex.mput]
  | cons p rest ih =>
    obtain ⟨k0, v0⟩ := p
    rcases List.nodup_cons.mp (by simpa only [List.map_cons] using h) with ⟨hk0, hrest⟩
    unfold Routex.mput
    by_cases hk : k0 = k
    · rw [if_pos hk]
      simpa only [List.map_cons] using h
    · rw [if_neg hk]
      simp only [List.map_cons]
      refine List.nodup_cons.mpr ⟨?_, ih hrest⟩
      intro hmem
      rcases mput_keys_mem rest k v k0 hmem with rfl | hmem
      · exact hk rfl
      · exact hk0 hmem

theorem capturesAux_keys_nodup (z : ℕ) (l : List GoStr) (names : List GoStr)
    (acc : List (GoStr × GoStr)) (h : (acc.map Prod.fst).Nodup) :
    ((Routex.capturesAux z l names acc).map Prod.fst).Nodup := by
  induction names generalizing z acc with
  | nil => exact h
  | cons n rest ih =>
    unfold Routex.capturesAux
    by_cases hskip : z = 0 ∨ n = []
    · rw [if_pos hskip]
      exact ih (z + 1) acc h
    · rw [if_neg hskip]
      exact ih (z + 1) _ (mput_keys_nodup acc n _ h)

theorem capturesAux_not_mem (z : ℕ) (l : List GoStr) (names : List GoStr)
    (acc : List (GoStr × GoStr)) (nm : GoStr) (h : nm ∉ names) :
    Routex.mget (Routex.capturesAux z l names acc) nm = Routex.mget acc nm := by
  induction names generalizing z acc with
  | nil => rfl
  | cons n rest ih =>
    have hn : nm ≠ n := fun he => h (by simp [he])
    have hrest : nm ∉ rest := fun he => h (by simp [he])
    unfold Routex.capturesAux
    by_cases hskip : z = 0 ∨ n = []
    · rw [if_pos hskip]
      exact ih (z + 1) acc hrest
    · rw [if_neg hskip]
      rw [ih (z + 1) _ hrest]
      exact mget_mput_other acc n nm _ hn

theorem capturesAux_found (l : List GoStr) (pre : List GoStr) (nm : GoStr)
    (post : List GoStr) (z : ℕ) (acc : List (GoStr × GoStr)) (hnm : nm ≠ [])
    (hpost : nm ∉ post) (hz : z + pre.length ≠ 0) :
    Routex.mget (Routex.capturesAux z l (pre ++ nm :: post) acc) nm =
      some (l.getD (z + pre.length) []) := by
  induction pre generalizing z acc with
  | nil =>
    rw [List.nil_append]
    unfold Routex.capturesAux
    have hz0 : ¬ (z = 0 ∨ nm = []) := by
      push_neg
      exact ⟨by simpa using hz, hnm⟩
    rw [if_neg hz0]
    rw [capturesAux_not_mem (z + 1) l post _ nm hpost]
    simpa using mget_mput_self acc nm (l.getD z [])
  | cons p pre ih =>
    rw [List.cons_append]
    unfold Routex.capturesAux
    have harith : z + 1 + pre.length = z + (p :: pre).length := by
      simp
      omega
    by_cases hskip : z = 0 ∨ p = []
    · rw [if_pos hskip]
      rw [ih (z + 1) acc (by simp), harith]
    · rw [if_neg hskip]
      rw [ih (z + 1) _ (by simp), harith]

theorem capturesAux_mem_names (l : List GoStr) (names : List GoStr) (z : ℕ)
    (acc : List (GoStr × GoStr)) (nm : GoStr)
    (h : Routex.mget (Routex.capturesAux z l names acc) nm ≠ none) :
    Routex.mget acc nm ≠ none ∨
      (nm ≠ [] ∧ ∃ i, ∃ hi : i < names.length, names.get ⟨i, hi⟩ = nm ∧ 0 < z + i) := by
  induction names generalizing z acc with
  | nil => exact Or.inl h
  | cons n rest ih =>
    unfold Routex.capturesAux at h
    by_cases hskip : z = 0 ∨ n = []
    · rw [if_pos hskip] at h
      rcases ih (z + 1) acc h with h2 | ⟨hne, i, hi, hget, hz⟩
      · exact Or.inl h2
      · exact Or.inr ⟨hne, i + 1, by simpa using hi, by simpa using hget, by omega⟩
    · rw [if_neg hskip] at h
      push_neg at hskip
      rcases ih (z + 1) _ h with h2 | ⟨hne, i, hi, hget, hz⟩
      · by_cases hn : nm = n
        · subst hn
          exact Or.inr ⟨hskip.2, 0, by simp, rfl, by omega⟩
        · rw [mget_mput_other acc n nm _ hn] at h2
          exact Or.inl h2
      · exact Or.inr ⟨hne, i + 1, by simpa using hi, by simpa using hget, by omega⟩

theorem nodup_filter_not_mem_drop (names : List GoStr) (i : ℕ) (hi : i < names.length)
    (hnd : (names.filter (fun n => decide (n ≠ []))).Nodup)
    (hne : names.get ⟨i, hi⟩ ≠ []) :
    names.get ⟨i, hi⟩ ∉ names.drop (i + 1) := by
  intro hmem
  have hsplit : names = names.take i ++ names.get ⟨i, hi⟩ :: names.drop (i + 1) := by
    conv_lhs => rw [← List.take_append_drop i names]
    rw [List.drop_eq_getElem_cons hi]
    simp [List.get_eq_getElem]
  rw [hsplit, List.filter_append, List.filter_cons_of_pos (by simpa using hne)] at hnd
  have h2 := hnd.of_append_right
  have h3 := (List.nodup_cons.mp h2).1
  exact h3 (List.mem_filter.mpr ⟨hmem, by simpa using hne⟩)

/-- Claim C8 (confirmed): on a structural match the capture table contains
exactly one entry per named capture group — each non-empty name at a positive
group index maps to that group's submatch (first conjunct; group names are
distinct in a compiled Go pattern), nothing else is in the table (second
conjunct: every present key comes from a non-empty name at a positive index,
so the index-0 whole match and unnamed groups are excluded; third conjunct:
the table's keys are distinct). Concretely, registering
`^/items/(?P<id>[0-9]+)$` and resolving `/items/42` with GET yields the
handler with captures `{id: "42"}`; the unsigned-integer accessor on `id`
returns 42 with no error; on a name not in the table it fails with an
`errValue` wrapping `ErrNotExists`. -/
theorem claim_C8 (names l : List GoStr)
    (hnd : (names.filter (fun n => decide (n ≠ []))).Nodup) :
    (∀ i : Fin names.length, 0 < i.val → names.get i ≠ [] →
      Routex.mget (Routex.captures names l) (names.get i) = some (l.getD i.val [])) ∧
    (∀ nm, Routex.mget (Routex.captures names l) nm ≠ none →
      nm ≠ [] ∧ ∃ j, ∃ hj : j < names.length, names.get ⟨j, hj⟩ = nm ∧ 0 < j) ∧
    ((Routex.captures names l).map Prod.fst).Nodup ∧
    Routex.Mux.add [] Routex.itemsPat [] Routex.itemsRgx 7 = .ok [Routex.itemsEntry] ∧
    Routex.Mux.handler [Routex.itemsEntry] (gs "/items/42") (gs "GET") =
      ⟨some 7, some (some [(gs "id", gs "42")]), [], true⟩ ∧
    Routex.values.Uint [(gs "id", gs "42")] (gs "id") = .ok 42 ∧
    Routex.values.Uint [(gs "id", gs "42")] (gs "missing") =
      .error (.errValue (gs "missing") Routex.ErrNotExists) := by
  refine ⟨?_, ?_, ?_, rfl, by decide, rfl, rfl⟩
  · intro i hz hne
    obtain ⟨iv, hi⟩ := i
    simp only [Fin.val_mk] at hz ⊢
    set nm := names.get ⟨iv, hi⟩ with hnm
    have hsplit : names = names.take iv ++ nm :: names.drop (iv + 1) := by
      conv_lhs => rw [← List.take_append_drop iv names]
      rw [List.drop_eq_getElem_cons hi]
      rw [hnm]
      simp [List.get_eq_getElem]
    have htake : (names.take iv).length = iv :=
      List.length_take_of_le (le_of_lt hi)
    have hfound := capturesAux_found l (names.take iv) nm
      (names.drop (iv + 1)) 0 [] hne
      (by rw [hnm]; exact nodup_filter_not_mem_drop names iv hi hnd (by rw [← hnm]; exact hne))
      (by rw [htake]; omega)
    unfold Routex.captures
    rw [hsplit, hfound, htake]
    simp
  · intro nm h
    rcases capturesAux_mem_names l names 0 [] nm h with h2 | ⟨hne, j, hj, hget, hz⟩
    · simp [Routex.mget, List.lookup] at h2
    · exact ⟨hne, j, hj, hget, by omega⟩
  · exact capturesAux_keys_nodup 0 l names [] (by simp)

/-- Witness for C8 at the example pattern: looking up `id` in the capture
table built from the match of `/items/42` yields `42`. -/
theorem claim_C8_witness :
    Routex.mget (Routex.captures [[], gs "id"] [gs "/items/42", gs "42"]) (gs "id") =
      some (gs "42") := by
  have h := (claim_C8 [[], gs "id"] [gs "/items/42", gs "42"] (by decide)).1
    ⟨1, by decide⟩ (by decide) (by decide)
  exact h.trans (by decide)

/-! ## Helper lemmas: path normalization (claim C7) -/

theorem splitSlash_ne_nil (s : GoStr) : Routex.splitSlash s ≠ [] := by
  induction s with
  | nil => simp [Routex.splitSlash]
  | cons c rest ih =>
    unfold Routex.splitSlash
    by_cases hc : c = '/'
    · rw [if_pos hc]
      simp
    · rw [if_neg hc]
      split <;> simp

theorem splitSlash_noslash (s : GoStr) (seg : GoStr) (h : seg ∈ Routex.splitSlash s) :
    '/' ∉ seg := by
  induction s generalizing seg with
  | nil =>
    simp only [Routex.splitSlash, List.mem_singleton] at h
    subst h
    simp
  | cons c rest ih =>
    unfold Routex.splitSlash at h
    by_cases hc : c = '/'
    · rw [if_pos hc] at h
      simp only [List.mem_cons] at h
      rcases h with rfl | h
      · simp
      · exact ih seg h
    · rw [if_neg hc] at h
      cases hr : Routex.splitSlash rest with
      | nil => exact absurd hr (splitSlash_ne_nil rest)
      | cons s0 segs =>
        rw [hr] at h
        simp only [List.mem_cons] at h
        rcases h with rfl | h
        · intro hmem
          rcases List.mem_cons.mp hmem with he | hmem2
          · exact hc he.symm
          · exact ih s0 (by rw [hr]; simp) hmem2
        · exact ih seg (by rw [hr]; simp [h])

theorem splitSlash_whole (a : GoStr) (h : '/' ∉ a) : Routex.splitSlash a = [a] := by
  induction a with
  | nil => rfl
  | cons c rest ih =>
    have hc : c ≠ '/' := fun he => h (by simp [he])
    have hrest : '/' ∉ rest := fun hm => h (by simp [hm])
    unfold Routex.splitSlash
    rw [if_neg hc, ih hrest]

theorem splitSlash_append (a r : GoStr) (h : '/' ∉ a) :
    Routex.splitSlash (a ++ '/' :: r) = a :: Routex.splitSlash r := by
  induction a with
  | nil =>
    rw [List.nil_append]
    conv_lhs => unfold Routex.splitSlash
    rw [if_pos rfl]
  | cons c rest ih =>
    have hc : c ≠ '/' := fun he => h (by simp [he])
    have hrest : '/' ∉ rest := fun hm => h (by simp [hm])
    rw [List.cons_append]
    conv_lhs => unfold Routex.splitSlash
    rw [if_neg hc, ih hrest]

theorem joinSlash_inv (segs : List GoStr) (hne : segs ≠ [])
    (h : ∀ a ∈ segs, '/' ∉ a) :
    Routex.splitSlash (Routex.joinSlash segs) = segs := by
  induction segs with
  | nil => exact absurd rfl hne
  | cons a rest ih =>
    cases rest with
    | nil =>
      show Routex.splitSlash (Routex.joinSlash [a]) = [a]
      unfold Routex.joinSlash
      exact splitSlash_whole a (h a (by simp))
    | cons b t =>
      show Routex.splitSlash (Routex.joinSlash (a :: b :: t)) = a :: b :: t
      unfold Routex.joinSlash
      rw [splitSlash_append a _ (h a (by simp))]
      rw [ih (by simp) (fun w hw => h w (by simp [hw]))]

theorem joinSlash_slash_inv (segs : List GoStr) (hne : segs ≠ [])
    (h : ∀ a ∈ segs, '/' ∉ a) :
    Routex.splitSlash (Routex.joinSlash segs ++ ['/']) = segs ++ [[]] := by
  induction segs with
  | nil => exact absurd rfl hne
  | cons a rest ih =>
    cases rest with
    | nil =>
      show Routex.splitSlash (Routex.joinSlash [a] ++ ['/']) = [a] ++ [[]]
      unfold Routex.joinSlash
      rw [show a ++ ['/'] = a ++ '/' :: [] from rfl, splitSlash_append a [] (h a (by simp))]
      rfl
    | cons b t =>
      show Routex.splitSlash (Routex.joinSlash (a :: b :: t) ++ ['/']) = (a :: b :: t) ++ [[]]
      unfold Routex.joinSlash
      rw [List.append_assoc]
      rw [show ('/' :: Routex.joinSlash (b :: t)) ++ ['/'] =
        '/' :: (Routex.joinSlash (b :: t) ++ ['/']) from rfl]
      rw [splitSlash_append a _ (h a (by simp))]
      rw [ih (by simp) (fun w hw => h w (by simp [hw]))]
      rfl

theorem elimSegs_good (stk segs : List GoStr)
    (hstk : ∀ x ∈ stk, Routex.goodSeg x) (hsegs : ∀ x ∈ segs, '/' ∉ x) :
    ∀ x ∈ Routex.elimSegs stk segs, Routex.goodSeg x := by
  induction segs generalizing stk with
  | nil =>
    intro x hx
    unfold Routex.elimSegs at hx
    exact hstk x (List.mem_reverse.mp hx)
  | cons seg rest ih =>
    intro x hx
    unfold Routex.elimSegs at hx
    by_cases h1 : seg = [] ∨ seg = ['.']
    · rw [if_pos h1] at hx
      exact ih stk hstk (fun w hw => hsegs w (by simp [hw])) x hx
    · rw [if_neg h1] at hx
      by_cases h2 : seg = ['.', '.']
      · rw [if_pos h2] at hx
        refine ih stk.tail (fun w hw => hstk w (List.mem_of_mem_tail hw))
          (fun w hw => hsegs w (by simp [hw])) x hx
      · rw [if_neg h2] at hx
        push_neg at h1
        refine ih (seg :: stk) ?_ (fun w hw => hsegs w (by simp [hw])) x hx
        intro w hw
        rcases List.mem_cons.mp hw with rfl | hw
        · exact ⟨h1.1, h1.2, h2, hsegs w (by simp)⟩
        · exact hstk w hw

theorem elimSegs_fixed (stk segs : List GoStr)
    (h : ∀ x ∈ segs, Routex.goodSeg x) :
    Routex.elimSegs stk segs = stk.reverse ++ segs := by
  induction segs generalizing stk with
  | nil =>
    rw [List.append_nil]
    rfl
  | cons seg rest ih =>
    obtain ⟨h1, h2, h3, _⟩ := h seg (by simp)
    unfold Routex.elimSegs
    rw [if_neg (by simp [h1, h2]), if_neg h3]
    rw [ih (seg :: stk) (fun w hw => h w (by simp [hw]))]
    simp

theorem elimSegs_append_empty (stk xs : List GoStr) :
    Routex.elimSegs stk (xs ++ [[]]) = Routex.elimSegs stk xs := by
  induction xs generalizing stk with
  | nil =>
    show Routex.elimSegs stk [[]] = Routex.elimSegs stk []
    conv_lhs => unfold Routex.elimSegs
    rw [if_pos (Or.inl rfl)]
  | cons seg rest ih =>
    rw [List.cons_append]
    unfold Routex.elimSegs
    by_cases h1 : seg = [] ∨ seg = ['.']
    · rw [if_pos h1, if_pos h1, ih]
    · rw [if_neg h1, if_neg h1]
      by_cases h2 : seg = ['.', '.']
      · rw [if_pos h2, if_pos h2, ih]
      · rw [if_neg h2, if_neg h2, ih]

theorem pathClean_good (s : GoStr) :
    ∀ x ∈ Routex.elimSegs [] (Routex.splitSlash s), Routex.goodSeg x :=
  elimSegs_good [] (Routex.splitSlash s) (by simp)
    (fun w hw => splitSlash_noslash s w hw)

theorem pathClean_fixed (segs : List GoStr) (h : ∀ x ∈ segs, Routex.goodSeg x) :
    Routex.pathClean ('/' :: Routex.joinSlash segs) = '/' :: Routex.joinSlash segs := by
  unfold Routex.pathClean
  cases segs with
  | nil =>
    show '/' :: Routex.joinSlash (Routex.elimSegs [] (Routex.splitSlash ['/'])) = _
    have h1 : Routex.splitSlash ['/'] = [[], []] := by
      unfold Routex.splitSlash
      rw [if_pos rfl]
      rfl
    rw [h1]
    rfl
  | cons a t =>
    have hne : (a :: t) ≠ ([] : List GoStr) := by simp
    have hns : ∀ w ∈ a :: t, '/' ∉ w := fun w hw => (h w hw).2.2.2
    have h1 : Routex.splitSlash ('/' :: Routex.joinSlash (a :: t)) =
        [] :: Routex.splitSlash (Routex.joinSlash (a :: t)) := by
      conv_lhs => unfold Routex.splitSlash
      rw [if_pos rfl]
    rw [h1, joinSlash_inv (a :: t) hne hns]
    have h2 : Routex.elimSegs [] ([] :: a :: t) = Routex.elimSegs [] (a :: t) := by
      conv_lhs => unfold Routex.elimSegs
      rw [if_pos (Or.inl rfl)]
    rw [h2, elimSegs_fixed [] (a :: t) h]
    rfl

theorem pathClean_trailing (segs : List GoStr) (h : ∀ x ∈ segs, Routex.goodSeg x)
    (hne : segs ≠ []) :
    Routex.pathClean (('/' :: Routex.joinSlash segs) ++ ['/']) =
      '/' :: Routex.joinSlash segs := by
  unfold Routex.pathClean
  have hns : ∀ w ∈ segs, '/' ∉ w := fun w hw => (h w hw).2.2.2
  have h1 : Routex.splitSlash (('/' :: Routex.joinSlash segs) ++ ['/']) =
      [] :: Routex.splitSlash (Routex.joinSlash segs ++ ['/']) := by
    rw [List.cons_append]
    conv_lhs => unfold Routex.splitSlash
    rw [if_pos rfl]
  rw [h1, joinSlash_slash_inv segs hne hns]
  have h2 : Routex.elimSegs [] ([] :: (segs ++ [[]])) = Routex.elimSegs [] (segs ++ [[]]) := by
    conv_lhs => unfold Routex.elimSegs
    rw [if_pos (Or.inl rfl)]
  rw [h2, elimSegs_append_empty [] segs, elimSegs_fixed [] segs h]
  rfl

theorem getLastD_ne_slash (a : GoStr) (d : Char) (hne : a ≠ []) (h : '/' ∉ a) :
    a.getLastD d ≠ '/' := by
  induction a generalizing d with
  | nil => exact absurd rfl hne
  | cons c rest ih =>
    rw [List.getLastD_cons]
    cases hr : rest with
    | nil =>
      intro he
      simp only [List.getLastD_nil] at he
      exact h (by simp [he])
    | cons c2 t =>
      have := ih c (by simp [hr]) (fun hm => h (by simp [hm]))
      rw [hr] at this
      exact this

theorem getLastD_append_ne_nil (x r : GoStr) (d : Char) (hne : r ≠ []) :
    (x ++ r).getLastD d = r.getLastD d := by
  induction x generalizing d with
  | nil => rfl
  | cons c t ih =>
    rw [List.cons_append, List.getLastD_cons, ih c]
    cases r with
    | nil => exact absurd rfl hne
    | cons c2 t2 => rw [List.getLastD_cons, List.getLastD_cons]

theorem joinSlash_ne_nil (segs : List GoStr) (h : ∀ x ∈ segs, Routex.goodSeg x)
    (hne : segs ≠ []) : Routex.joinSlash segs ≠ [] := by
  cases segs with
  | nil => exact absurd rfl hne
  | cons a t =>
    cases t with
    | nil => exact (h a (by simp)).1
    | cons b t2 =>
      show a ++ '/' :: Routex.joinSlash (b :: t2) ≠ []
      simp

theorem joinSlash_last (segs : List GoStr) (d : Char) (h : ∀ x ∈ segs, Routex.goodSeg x)
    (hne : segs ≠ []) : (Routex.joinSlash segs).getLastD d ≠ '/' := by
  induction segs generalizing d with
  | nil => exact absurd rfl hne
  | cons a t ih =>
    cases t with
    | nil =>
      show (Routex.joinSlash [a]).getLastD d ≠ '/'
      unfold Routex.joinSlash
      exact getLastD_ne_slash a d (h a (by simp)).1 (h a (by simp)).2.2.2
    | cons b t2 =>
      show (Routex.joinSlash (a :: b :: t2)).getLastD d ≠ '/'
      unfold Routex.joinSlash
      rw [getLastD_append_ne_nil a _ d (by simp), List.getLastD_cons]
      exact ih '/' (fun w hw => h w (by simp [hw])) (by simp)

theorem cleanRest_plain (segs : List GoStr) (h : ∀ x ∈ segs, Routex.goodSeg x) :
    Routex.cleanRest ('/' :: Routex.joinSlash segs) = '/' :: Routex.joinSlash segs := by
  unfold Routex.cleanRest
  rw [pathClean_fixed segs h]
  cases segs with
  | nil =>
    rw [if_neg]
    intro hcond
    simpa [Routex.joinSlash] using hcond.1
  | cons a t =>
    rw [if_neg]
    intro hcond
    have h2 := hcond.2.1
    rw [List.getLastD_cons] at h2
    exact joinSlash_last (a :: t) '/' h (by simp) h2

theorem cleanRest_trailing (segs : List GoStr) (h : ∀ x ∈ segs, Routex.goodSeg x)
    (hne : segs ≠ []) :
    Routex.cleanRest (('/' :: Routex.joinSlash segs) ++ ['/']) =
      ('/' :: Routex.joinSlash segs) ++ ['/'] := by
  have hjne : Routex.joinSlash segs ≠ [] := joinSlash_ne_nil segs h hne
  unfold Routex.cleanRest
  rw [pathClean_trailing segs h hne]
  rw [if_pos, if_pos]
  · refine ⟨by simp, List.isPrefixOf_iff_prefix.mpr ⟨['/'], rfl⟩⟩
  · refine ⟨?_, ?_, ?_⟩
    · have := List.length_pos.mpr hjne
      simp only [List.length_cons]
      omega
    · rw [getLastD_append_ne_nil _ ['/'] ' ' (by simp)]
      rfl
    · simp [hjne]

theorem clean_shape (s : GoStr) :
    ∃ segs, (∀ x ∈ segs, Routex.goodSeg x) ∧
      (Routex.clean s = '/' :: Routex.joinSlash segs ∨
        (Routex.clean s = ('/' :: Routex.joinSlash segs) ++ ['/'] ∧ segs ≠ [])) := by
  unfold Routex.clean
  by_cases h0 : s.length = 0
  · rw [if_pos h0]
    exact ⟨[], by simp, Or.inl rfl⟩
  · rw [if_neg h0]
    set s1 := if s.headD ' ' ≠ '/' then '/' :: s else s with hs1
    refine ⟨Routex.elimSegs [] (Routex.splitSlash s1), pathClean_good s1, ?_⟩
    have hpc : Routex.pathClean s1 =
        '/' :: Routex.joinSlash (Routex.elimSegs [] (Routex.splitSlash s1)) := rfl
    unfold Routex.cleanRest
    by_cases hc1 : 1 < (Routex.pathClean s1).length ∧ s1.getLastD ' ' = '/' ∧
        Routex.pathClean s1 ≠ ['/']
    · rw [if_pos hc1]
      have hsegne : Routex.elimSegs [] (Routex.splitSlash s1) ≠ [] := by
        intro hseg
        rw [hpc, hseg] at hc1
        simp [Routex.joinSlash] at hc1
      by_cases hc2 : s1.length = (Routex.pathClean s1).length + 1 ∧
          (Routex.pathClean s1).isPrefixOf s1
      · rw [if_pos hc2]
        refine Or.inr ⟨?_, hsegne⟩
        rw [← hpc]
        obtain ⟨hlen2, hpref⟩ := hc2
        rcases List.isPrefixOf_iff_prefix.mp hpref with ⟨t, ht⟩
        have htl : t.length = 1 := by
          have hl := congrArg List.length ht
          simp only [List.length_append] at hl
          omega
        rcases t with _ | ⟨c, t2⟩
        · simp at htl
        · rcases t2 with _ | ⟨c2, t3⟩
          · have hlast := hc1.2.1
            rw [← ht, getLastD_append_ne_nil _ [c] ' ' (by simp)] at hlast
            simp only [List.getLastD_cons, List.getLastD_nil] at hlast
            conv_lhs => rw [← ht]
            rw [hlast]
          · simp at htl
      · rw [if_neg hc2]
        exact Or.inr ⟨by rw [hpc], hsegne⟩
    · rw [if_neg hc1]
      exact Or.inl (by rw [hpc])

theorem clean_fix_plain (segs : List GoStr) (h : ∀ x ∈ segs, Routex.goodSeg x) :
    Routex.clean ('/' :: Routex.joinSlash segs) = '/' :: Routex.joinSlash segs := by
  unfold Routex.clean
  rw [if_neg (by simp), if_neg (by simp)]
  exact cleanRest_plain segs h

theorem clean_fix_trailing (segs : List GoStr) (h : ∀ x ∈ segs, Routex.goodSeg x)
    (hne : segs ≠ []) :
    Routex.clean (('/' :: Routex.joinSlash segs) ++ ['/']) =
      ('/' :: Routex.joinSlash segs) ++ ['/'] := by
  unfold Routex.clean
  rw [if_neg (by simp), if_neg (by simp)]
  exact cleanRest_trailing segs h hne

/-- Claim C7 (confirmed): the path-normalization function `clean` is
idempotent — for every byte string `p`, `clean (clean p) = clean p` — and the
already-normalized path `/items/` normalizes to itself. -/
theorem claim_C7 :
    (∀ p : GoStr, Routex.clean (Routex.clean p) = Routex.clean p) ∧
    Routex.clean (gs "/items/") = gs "/items/" := by
  constructor
  · intro p
    rcases clean_shape p with ⟨segs, hgood, hcase | ⟨hcase, hne⟩⟩
    · rw [hcase, clean_fix_plain segs hgood]
    · rw [hcase, clean_fix_trailing segs hgood hne]
  · decide
